import Mathlib

/-!
# MoltSpeak Python SDK — verification of the wire-protocol core

A shallow embedding, in Lean 4, of the MoltSpeak reference SDK
(`sdk/python/moltspeak.py` plus the `moltspeak` package modules
`classification.py`, `message.py`, `agent.py`, `crypto.py`).

Modelling conventions, used throughout:

* Python dicts / JSON values are modelled by the inductive `MS.Json`
  (object member order preserved, as in Python 3.7+ dicts).  JSON numbers
  are modelled as integers (`Int`); every numeric field of the protocol
  (`ts`, `exp`, sizes) is an integer in the source.
* `json.dumps` / `json.loads` are modelled by executable functions
  (`pyDumps`, `pyDumpsIndent2`, `pyDumpsCanonical`, `pyLoads`) that
  reproduce CPython's default separators, `indent=2` layout,
  `sort_keys=True` + compact separators, and `ensure_ascii=True` string
  escaping (`\uXXXX`, surrogate pairs for astral characters).
* Wall-clock time (`time.time`) is threaded as an explicit argument
  `nowMs : Int` through every function that calls `now()` in the source.
* Exceptions are modelled with `Except PyErr`; a Python function that
  cannot raise keeps a plain return type.
* Python object mutation (only `Agent.sign` mutates) is modelled by
  explicit state passing: the embedding returns both the post-call state
  of the argument and the return value.
* The error/warning strings accumulated by the validators are modelled by
  the inductive types `VErr` / `VWarn` / `EnvErr` / `ClsErr`, one
  constructor per `errors.append` / `warnings.append` site in the source,
  carrying the interpolated data; the surrounding prose of each f-string
  is fixed text and is recorded in comments.
-/

set_option maxHeartbeats 1600000
set_option maxRecDepth 4096

namespace MS

/-- Characters that the banned-brace convention keeps out of literals. -/
def lbrace : Char := Char.ofNat 123

/-- Closing curly-brace character. -/
def rbrace : Char := Char.ofNat 125

/-- Single-quote (apostrophe) character. -/
def squote : Char := Char.ofNat 39

/-- A JSON value / Python dict-shaped value.  Object member order is kept
(Python dicts preserve insertion order); numbers are integers. -/
inductive Json where
  | null
  | bool (b : Bool)
  | num (n : Int)
  | str (s : String)
  | arr (xs : List Json)
  | obj (kvs : List (String × Json))

namespace Json

mutual

/-- Custom size measure for well-founded recursion over nested `Json`. -/
def jsize : Json → Nat
  | .null | .bool _ | .num _ | .str _ => 1
  | .arr xs => 1 + jsizeArr xs
  | .obj kvs => 1 + jsizeObj kvs

/-- Total size of a list of array items. -/
def jsizeArr : List Json → Nat
  | [] => 0
  | x :: xs => jsize x + jsizeArr xs

/-- Total size of a list of object members. -/
def jsizeObj : List (String × Json) → Nat
  | [] => 0
  | (_, v) :: kvs => jsize v + jsizeObj kvs

end

theorem jsize_pos (j : Json) : 0 < j.jsize := by
  cases j <;> simp only [jsize] <;> omega

theorem jsize_lt_arr {x : Json} {xs : List Json} (h : x ∈ xs) :
    x.jsize < (Json.arr xs).jsize := by
  induction xs with
  | nil => cases h
  | cons y ys ih =>
      rcases List.mem_cons.mp h with h | h
      · subst h; simp only [jsize, jsizeArr]; omega
      · have h1 := ih h
        have h2 := jsize_pos y
        simp only [jsize, jsizeArr] at h1 ⊢
        omega

theorem jsize_lt_obj {kv : String × Json} {kvs : List (String × Json)} (h : kv ∈ kvs) :
    kv.2.jsize < (Json.obj kvs).jsize := by
  induction kvs with
  | nil => cases h
  | cons y ys ih =>
      rcases List.mem_cons.mp h with h | h
      · subst h
        simp only [jsize, jsizeObj]
        omega
      · have h1 := ih h
        have h2 := jsize_pos y.2
        obtain ⟨k, v⟩ := y
        simp only [jsize, jsizeObj] at h1 h2 ⊢
        omega

/-- Induction principle for `Json` giving membership hypotheses for the
nested lists (arrays and object members). -/
theorem inductionOn {P : Json → Prop}
    (hnull : P .null) (hbool : ∀ b, P (.bool b)) (hnum : ∀ n, P (.num n))
    (hstr : ∀ s, P (.str s))
    (harr : ∀ xs, (∀ x ∈ xs, P x) → P (.arr xs))
    (hobj : ∀ kvs, (∀ kv ∈ kvs, P kv.2) → P (.obj kvs)) :
    ∀ j, P j := by
  suffices key : ∀ n j, Json.jsize j ≤ n → P j from fun j => key j.jsize j le_rfl
  intro n
  induction n with
  | zero => intro j hj; have := jsize_pos j; omega
  | succ n ih =>
      intro j hj
      cases j with
      | null => exact hnull
      | bool b => exact hbool b
      | num m => exact hnum m
      | str s => exact hstr s
      | arr xs =>
          exact harr xs (fun x hx => ih x (by have := jsize_lt_arr hx; omega))
      | obj kvs =>
          exact hobj kvs (fun kv hkv => ih kv.2 (by have := jsize_lt_obj hkv; omega))

/-- Structural boolean equality on `Json` values. -/
def beq : Json → Json → Bool
  | .null, .null => true
  | .bool a, .bool b => a == b
  | .num a, .num b => a == b
  | .str a, .str b => a == b
  | .arr xs, .arr ys => beqArr xs ys
  | .obj xs, .obj ys => beqObj xs ys
  | _, _ => false
where
  beqArr : List Json → List Json → Bool
    | [], [] => true
    | x :: xs, y :: ys => beq x y && beqArr xs ys
    | _, _ => false
  beqObj : List (String × Json) → List (String × Json) → Bool
    | [], [] => true
    | (k, v) :: xs, (l, w) :: ys => k == l && beq v w && beqObj xs ys
    | _, _ => false

theorem beq_refl : ∀ j : Json, beq j j = true := by
  intro j
  induction j using inductionOn with
  | hnull => rfl
  | hbool b => simp [beq]
  | hnum n => simp [beq]
  | hstr s => simp [beq]
  | harr xs ih =>
      simp only [beq]
      induction xs with
      | nil => rfl
      | cons x xs ihx =>
          simp only [beq.beqArr, Bool.and_eq_true]
          exact ⟨ih x (by simp), ihx (fun y hy => ih y (by simp [hy]))⟩
  | hobj kvs ih =>
      simp only [beq]
      induction kvs with
      | nil => rfl
      | cons kv kvs ihx =>
          obtain ⟨k, v⟩ := kv
          simp only [beq.beqObj, Bool.and_eq_true]
          exact ⟨⟨by simp, ih (k, v) (by simp)⟩, ihx (fun y hy => ih y (by simp [hy]))⟩

/-- Refuting equality of two `Json` values from their structural inequality. -/
theorem ne_of_beq_false {a b : Json} (h : beq a b = false) : a ≠ b := by
  intro hab; subst hab; rw [beq_refl] at h; cases h

/-- Structural equality is sound. -/
theorem eq_of_beq : ∀ a b : Json, beq a b = true → a = b := by
  intro a
  induction a using inductionOn with
  | hnull => intro b h; cases b <;> simp_all [beq]
  | hbool a => intro b h; cases b <;> simp_all [beq]
  | hnum n => intro b h; cases b <;> simp_all [beq]
  | hstr s => intro b h; cases b <;> simp_all [beq]
  | harr xs ih =>
      intro b h
      cases b
      case arr ys =>
        simp only [beq] at h
        congr 1
        induction xs generalizing ys with
        | nil => cases ys with
            | nil => rfl
            | cons y ys => simp [beq.beqArr] at h
        | cons x xs ihx =>
            cases ys with
            | nil => simp [beq.beqArr] at h
            | cons y ys =>
                simp only [beq.beqArr, Bool.and_eq_true] at h
                rw [ih x (by simp) y h.1,
                  ihx (fun z hz => ih z (by simp [hz])) ys h.2]
      all_goals simp [beq] at h
  | hobj kvs ih =>
      intro b h
      cases b
      case obj ys =>
        simp only [beq] at h
        congr 1
        induction kvs generalizing ys with
        | nil => cases ys with
            | nil => rfl
            | cons y ys => obtain ⟨l, w⟩ := y; simp [beq.beqObj] at h
        | cons kv kvs ihx =>
            obtain ⟨k, v⟩ := kv
            cases ys with
            | nil => simp [beq.beqObj] at h
            | cons y ys =>
                obtain ⟨l, w⟩ := y
                simp only [beq.beqObj, Bool.and_eq_true, beq_iff_eq] at h
                have h2 : v = w := ih (k, v) (by simp) w h.1.2
                rw [h.1.1, h2, ihx (fun z hz => ih z (by simp [hz])) ys h.2]
      all_goals simp [beq] at h

instance : BEq Json := ⟨Json.beq⟩

instance : LawfulBEq Json where
  eq_of_beq h := eq_of_beq _ _ h
  rfl := beq_refl _

instance : DecidableEq Json := fun a b =>
  match h : Json.beq a b with
  | true => isTrue (Json.eq_of_beq a b h)
  | false => isFalse (Json.ne_of_beq_false h)

/-- First-match association lookup (Python dict indexing; keys are unique in
every dict the SDK builds, so first-match agrees with dict semantics). -/
def lookupKv : List (String × Json) → String → Option Json
  | [], _ => none
  | (k, v) :: kvs, key => if k = key then some v else lookupKv kvs key

/-- Python `key in d` for an object; `False` for non-objects (callers below
only apply it after an `isinstance(..., dict)` check). -/
def hasKey (j : Json) (key : String) : Bool :=
  match j with
  | .obj kvs => (lookupKv kvs key).isSome
  | _ => false

/-- Python `d.get(key, default)` on an object. -/
def getD (j : Json) (key : String) (dflt : Json) : Json :=
  match j with
  | .obj kvs => match lookupKv kvs key with
      | some v => v
      | none => dflt
  | _ => dflt

/-- Python `d.get(key)` (default `None`); JSON `null` doubles as Python `None`. -/
def getN (j : Json) (key : String) : Json := getD j key .null

/-- Python `d[key] = v`: replace the first binding, else append (insertion
order preserved, new keys go last — Python 3.7+ dict semantics). -/
def setKey : List (String × Json) → String → Json → List (String × Json)
  | [], key, v => [(key, v)]
  | (k, w) :: kvs, key, v =>
      if k = key then (key, v) :: kvs else (k, w) :: setKey kvs key v

/-- Python `d.pop(key, None)`: drop the binding for `key` (dict keys are
unique, so dropping every occurrence agrees with dict semantics). -/
def delKey (kvs : List (String × Json)) (key : String) : List (String × Json) :=
  kvs.filter (fun kv => kv.1 ≠ key)

/-- Python truthiness of a JSON-shaped value: `None`, `False`, `0`, `""`,
`[]` and the empty dict are falsy. -/
def truthy : Json → Bool
  | .null => false
  | .bool b => b
  | .num n => n != 0
  | .str s => s ≠ ""
  | .arr xs => !xs.isEmpty
  | .obj kvs => !kvs.isEmpty

end Json

/-! ## Bytes and UTF-8 (`byte_size` in the source measures `len(s.encode("utf-8"))`) -/

/-- Byte length of one character's UTF-8 encoding. -/
def utf8CharLen (c : Char) : Nat :=
  if c.toNat < 0x80 then 1
  else if c.toNat < 0x800 then 2
  else if c.toNat < 0x10000 then 3
  else 4

/-- UTF-8 bytes of one character (standard UTF-8, what `str.encode` emits). -/
def utf8CharBytes (c : Char) : List Nat :=
  let n := c.toNat
  if n < 0x80 then [n]
  else if n < 0x800 then [0xC0 + n / 64, 0x80 + n % 64]
  else if n < 0x10000 then [0xE0 + n / 4096, 0x80 + n / 64 % 64, 0x80 + n % 64]
  else [0xF0 + n / 262144, 0x80 + n / 4096 % 64, 0x80 + n / 64 % 64, 0x80 + n % 64]

/-- UTF-8 encoding of a string as a byte list (`s.encode("utf-8")`). -/
def utf8Bytes (s : String) : List Nat := s.toList.flatMap utf8CharBytes

/-- `byte_size(text)` from the source: `len(text.encode("utf-8"))`. -/
def byte_size (s : String) : Nat := (utf8Bytes s).length

/-! ## `json.dumps` — CPython-faithful rendering

Three variants appear in the source: the default
(`separators=(", ", ": ")`), `indent=2` (`encode(..., pretty=True)`), and
`sort_keys=True, separators=(",", ":")` (`Agent.sign`'s canonical form).
All three are instances of one renderer parameterized by the whitespace
emitted at each structural slot. -/

/-- Decimal digit character (`0 ≤ d ≤ 9`). -/
def decDigit (d : Nat) : Char := Char.ofNat (48 + d)

/-- Lowercase hexadecimal digit character (`0 ≤ d ≤ 15`); CPython's
`\uXXXX` escapes use lowercase hex. -/
def hexDigit (d : Nat) : Char := if d < 10 then Char.ofNat (48 + d) else Char.ofNat (87 + d)

/-- Decimal digit characters of a natural number, most significant first. -/
def natChars (n : Nat) : List Char :=
  if h : n < 10 then [decDigit n]
  else natChars (n / 10) ++ [decDigit (n % 10)]
  termination_by n
  decreasing_by exact Nat.div_lt_self (by omega) (by omega)

/-- Characters of an integer: optional minus sign, then decimal digits —
`repr(int)` in Python, which is also its JSON form. -/
def intChars (i : Int) : List Char :=
  (if i < 0 then ['-'] else []) ++ natChars i.natAbs

/-- Decimal digits again, structurally on a fuel, so concrete renderings
reduce inside the kernel; `natCharsF_eq` identifies it with `natChars`. -/
def natCharsF : Nat → Nat → List Char
  | 0, _ => []
  | fuel + 1, n =>
      if n < 10 then [decDigit n] else natCharsF fuel (n / 10) ++ [decDigit (n % 10)]

theorem natCharsF_eq : ∀ (fuel n : Nat), n < fuel → natCharsF fuel n = natChars n := by
  intro fuel
  induction fuel with
  | zero => intro n h; omega
  | succ f ih =>
      intro n h
      by_cases h10 : n < 10
      · rw [natCharsF, if_pos h10, natChars, dif_pos h10]
      · have hd : n / 10 < n := Nat.div_lt_self (by omega) (by omega)
        rw [natCharsF, if_neg h10, natChars, dif_neg h10, ih (n / 10) (by omega)]

/-- Kernel-computable `intChars`. -/
def intCharsS (i : Int) : List Char :=
  (if i < 0 then ['-'] else []) ++ natCharsF (i.natAbs + 1) i.natAbs

theorem intCharsS_eq (i : Int) : intCharsS i = intChars i := by
  rw [intCharsS, intChars, natCharsF_eq _ _ (Nat.lt_succ_self _)]

/-- Four lowercase hex digits of `n < 0x10000`. -/
def hex4 (n : Nat) : List Char :=
  [hexDigit (n / 4096 % 16), hexDigit (n / 256 % 16), hexDigit (n / 16 % 16), hexDigit (n % 16)]

/-- One character, JSON-escaped exactly as CPython's
`json.encoder.py_encode_basestring_ascii` does with `ensure_ascii=True`:
`"` and `\` escaped, the five short escapes, `\uXXXX` for every other
character outside `0x20..0x7E`, surrogate pairs for astral characters. -/
def escChar (c : Char) : List Char :=
  if c.toNat = 34 then ['\\', '"']
  else if c.toNat = 92 then ['\\', '\\']
  else if c.toNat = 10 then ['\\', 'n']
  else if c.toNat = 13 then ['\\', 'r']
  else if c.toNat = 9 then ['\\', 't']
  else if c.toNat = 8 then ['\\', 'b']
  else if c.toNat = 12 then ['\\', 'f']
  else if c.toNat < 32 || 126 < c.toNat then
    if c.toNat < 0x10000 then '\\' :: 'u' :: hex4 c.toNat
    else
      '\\' :: 'u' :: hex4 (0xD800 + (c.toNat - 0x10000) / 0x400)
        ++ '\\' :: 'u' :: hex4 (0xDC00 + (c.toNat - 0x10000) % 0x400)
  else [c]

/-- A JSON string literal: quote, escaped body, quote. -/
def strChars (s : String) : List Char :=
  '"' :: (s.toList.flatMap escChar ++ ['"'])

/-- Whitespace configuration of a `json.dumps` mode.  Each slot takes the
nesting depth of the enclosing container (0 at top level). -/
structure WsCfg where
  afterOpen : Nat → List Char
  sepWs : Nat → List Char
  beforeClose : Nat → List Char
  afterColon : List Char

/-- `json.dumps(x)` — default separators `(", ", ": ")`, no newlines. -/
def wsDefault : WsCfg := ⟨fun _ => [], fun _ => [' '], fun _ => [], [' ']⟩

/-- `json.dumps(x, separators=(",", ":"))` — fully compact. -/
def wsCompact : WsCfg := ⟨fun _ => [], fun _ => [], fun _ => [], []⟩

/-- `json.dumps(x, indent=2)` — newline plus 2·depth spaces; item separator
becomes `","`, key separator stays `": "`. -/
def wsIndent2 : WsCfg :=
  ⟨fun d => '\n' :: List.replicate (2 * (d + 1)) ' ',
   fun d => '\n' :: List.replicate (2 * (d + 1)) ' ',
   fun d => '\n' :: List.replicate (2 * d) ' ',
   [' ']⟩

/-- Join rendered pieces with a separator (the `", "` / `",\n  "` between
container items). -/
def joinPieces (sep : List Char) : List (List Char) → List Char
  | [] => []
  | [p] => p
  | p :: q :: rest => p ++ sep ++ joinPieces sep (q :: rest)

/-- Characters of the `null` literal. -/
def nullChars : List Char := ['n', 'u', 'l', 'l']

/-- Characters of the `true` literal. -/
def trueChars : List Char := ['t', 'r', 'u', 'e']

/-- Characters of the `false` literal. -/
def falseChars : List Char := ['f', 'a', 'l', 's', 'e']

/-- Render a JSON value with whitespace configuration `w` at depth `d`. -/
def render (w : WsCfg) (d : Nat) (j : Json) : List Char :=
  match j with
  | .null => nullChars
  | .bool true => trueChars
  | .bool false => falseChars
  | .num n => intChars n
  | .str s => strChars s
  | .arr xs =>
      if xs.isEmpty then ['[', ']']
      else
        '[' :: (w.afterOpen d
          ++ joinPieces (',' :: w.sepWs d) (xs.attach.map (fun x => render w (d + 1) x.1))
          ++ w.beforeClose d ++ [']'])
  | .obj kvs =>
      if kvs.isEmpty then [lbrace, rbrace]
      else
        lbrace :: (w.afterOpen d
          ++ joinPieces (',' :: w.sepWs d)
              (kvs.attach.map (fun kv =>
                strChars kv.1.1 ++ ':' :: (w.afterColon ++ render w (d + 1) kv.1.2)))
          ++ w.beforeClose d ++ [rbrace])
termination_by Json.jsize j
decreasing_by
  · exact Json.jsize_lt_arr x.2
  · exact Json.jsize_lt_obj kv.2

/-- The renderer again, structurally on a fuel bounded by the term size, so
that concrete renderings reduce inside the kernel; `renderS_eq` below
identifies it with `render`. -/
def renderS : Nat → WsCfg → Nat → Json → List Char
  | 0, _, _, _ => []
  | fuel + 1, w, d, j =>
      match j with
      | .null => nullChars
      | .bool true => trueChars
      | .bool false => falseChars
      | .num n => intCharsS n
      | .str s => strChars s
      | .arr xs =>
          if xs.isEmpty then ['[', ']']
          else
            '[' :: (w.afterOpen d
              ++ joinPieces (',' :: w.sepWs d) (xs.map (fun x => renderS fuel w (d + 1) x))
              ++ w.beforeClose d ++ [']'])
      | .obj kvs =>
          if kvs.isEmpty then [lbrace, rbrace]
          else
            lbrace :: (w.afterOpen d
              ++ joinPieces (',' :: w.sepWs d)
                  (kvs.map (fun kv =>
                    strChars kv.1 ++ ':' :: (w.afterColon ++ renderS fuel w (d + 1) kv.2)))
              ++ w.beforeClose d ++ [rbrace])

/-- `json.dumps(x)` with CPython defaults, as a `String`. -/
def pyDumps (j : Json) : String := String.mk (renderS (Json.jsize j) wsDefault 0 j)

/-- `json.dumps(x, indent=2)`, as used by `encode(..., pretty=True)`. -/
def pyDumpsIndent2 (j : Json) : String := String.mk (renderS (Json.jsize j) wsIndent2 0 j)

/-- Recursively sort every object's members by key, code-point order —
the effect of `json.dumps(..., sort_keys=True)`. -/
def sortKeys (j : Json) : Json :=
  match j with
  | .null => .null
  | .bool b => .bool b
  | .num n => .num n
  | .str s => .str s
  | .arr xs => .arr (xs.attach.map (fun x => sortKeys x.1))
  | .obj kvs =>
      .obj ((kvs.attach.map (fun kv => (kv.1.1, sortKeys kv.1.2))).mergeSort
        (fun a b => a.1 ≤ b.1))
termination_by Json.jsize j
decreasing_by
  · exact Json.jsize_lt_arr x.2
  · exact Json.jsize_lt_obj kv.2

/-- `json.dumps(x, sort_keys=True, separators=(",", ":"))` — the canonical
form signed by `Agent.sign` / checked by `Agent.verify`. -/
def pyDumpsCanonical (j : Json) : String := String.mk (render wsCompact 0 (sortKeys j))

/-! ## `json.loads` — recursive-descent parser

Executable model of `json.loads` on the value domain of `Json` (numbers are
integers; `NaN`/`Infinity`/float literals are outside the model).  The
parser recurses structurally on a fuel counter; `pyLoads` supplies fuel
larger than the input, which the round-trip lemmas show is enough. -/

/-- JSON whitespace (`json.decoder.WHITESPACE`): space, tab, newline, CR. -/
def isWsP (c : Char) : Bool := c = ' ' || c = '\t' || c = '\n' || c = '\r'

/-- ASCII decimal digit test. -/
def isDigitP (c : Char) : Bool := 48 ≤ c.toNat && c.toNat ≤ 57

/-- Drop leading JSON whitespace. -/
def skipWs : List Char → List Char
  | [] => []
  | c :: cs => if isWsP c then skipWs cs else c :: cs

/-- Split a leading run of ASCII digits from the input. -/
def takeDigits : List Char → List Char × List Char
  | [] => ([], [])
  | c :: cs =>
      if isDigitP c then
        let (ds, r) := takeDigits cs
        (c :: ds, r)
      else ([], c :: cs)

/-- Numeric value of a digit run (most significant first). -/
def digitsToNat (ds : List Char) : Nat :=
  ds.foldl (fun acc c => acc * 10 + (c.toNat - 48)) 0

/-- Parse an integer literal: optional minus sign, then digits. -/
def parseIntTok (cs : List Char) : Option (Int × List Char) :=
  match cs with
  | [] => none
  | c :: cs1 =>
      if c = '-' then
        let (ds, r) := takeDigits cs1
        if ds.isEmpty then none else some (-(digitsToNat ds : Int), r)
      else
        let (ds, r) := takeDigits (c :: cs1)
        if ds.isEmpty then none else some ((digitsToNat ds : Int), r)

/-- Value of a hexadecimal digit character, either case. -/
def hexVal (c : Char) : Option Nat :=
  if 48 ≤ c.toNat && c.toNat ≤ 57 then some (c.toNat - 48)
  else if 97 ≤ c.toNat && c.toNat ≤ 102 then some (c.toNat - 87)
  else if 65 ≤ c.toNat && c.toNat ≤ 70 then some (c.toNat - 55)
  else none

/-- Value of four hex digits. -/
def hexVal4 (a b c d : Char) : Option Nat := do
  let va ← hexVal a
  let vb ← hexVal b
  let vc ← hexVal c
  let vd ← hexVal d
  return ((va * 16 + vb) * 16 + vc) * 16 + vd

/-- Continuation type of the string scanner: next accumulator, remaining
input. -/
abbrev StrK := List Char → List Char → Option (String × List Char)

/-- Low surrogate of a `\uXXXX\uXXXX` pair (`n` is the already-read high
surrogate's value). -/
def parseEscSur (k : StrK) (acc : List Char) (n : Nat) :
    List Char → Option (String × List Char)
  | e2 :: u2 :: a2 :: b2 :: c3 :: d2 :: rest4 =>
      if e2 = '\\' && u2 = 'u' then
        match hexVal4 a2 b2 c3 d2 with
        | some m =>
            if 0xDC00 ≤ m && m ≤ 0xDFFF then
              k (Char.ofNat (0x10000 + (n - 0xD800) * 0x400 + (m - 0xDC00)) :: acc) rest4
            else none
        | none => none
      else none
  | _ => none

/-- A `\uXXXX` escape (after the `\u` has been consumed). -/
def parseEscU (k : StrK) (acc : List Char) :
    List Char → Option (String × List Char)
  | a :: b :: c2 :: d :: rest2 =>
      match hexVal4 a b c2 d with
      | none => none
      | some n =>
          if 0xD800 ≤ n && n ≤ 0xDBFF then parseEscSur k acc n rest2
          else if 0xDC00 ≤ n && n ≤ 0xDFFF then none
          else k (Char.ofNat n :: acc) rest2
  | _ => none

/-- An escape sequence (after the backslash has been consumed). -/
def parseEsc (k : StrK) (acc : List Char) :
    List Char → Option (String × List Char)
  | [] => none
  | e :: rest1 =>
      if e = 'u' then parseEscU k acc rest1
      else if e = '"' then k ('"' :: acc) rest1
      else if e = '\\' then k ('\\' :: acc) rest1
      else if e = '/' then k ('/' :: acc) rest1
      else if e = 'b' then k (Char.ofNat 8 :: acc) rest1
      else if e = 'f' then k (Char.ofNat 12 :: acc) rest1
      else if e = 'n' then k ('\n' :: acc) rest1
      else if e = 'r' then k ('\r' :: acc) rest1
      else if e = 't' then k ('\t' :: acc) rest1
      else none

/-- Body of a string literal after the opening quote; handles the standard
escapes, `\uXXXX`, and surrogate-pair recombination (CPython additionally
accepts lone surrogates, which Lean's `Char` cannot carry; they are
unreachable from `json.dumps` output).  Fuel-recursive; one unit of fuel
per source character. -/
def parseStrBody (fuel : Nat) (acc : List Char) (cs : List Char) :
    Option (String × List Char) :=
  match fuel with
  | 0 => none
  | fuel + 1 =>
    match cs with
    | [] => none
    | c :: rest =>
      if c = '"' then some (String.mk acc.reverse, rest)
      else if c = '\\' then parseEsc (parseStrBody fuel) acc rest
      else if c.toNat < 32 then none
      else parseStrBody fuel (c :: acc) rest

mutual

/-- Parse one JSON value (leading whitespace allowed). -/
def parseVal (fuel : Nat) (cs : List Char) : Option (Json × List Char) :=
  match fuel with
  | 0 => none
  | fuel + 1 =>
      match skipWs cs with
      | [] => none
      | c :: r =>
          if c = 'n' then
            match r with
            | 'u' :: 'l' :: 'l' :: r2 => some (.null, r2)
            | _ => none
          else if c = 't' then
            match r with
            | 'r' :: 'u' :: 'e' :: r2 => some (.bool true, r2)
            | _ => none
          else if c = 'f' then
            match r with
            | 'a' :: 'l' :: 's' :: 'e' :: r2 => some (.bool false, r2)
            | _ => none
          else if c = '"' then
            match parseStrBody (r.length + 1) [] r with
            | some (s, r2) => some (.str s, r2)
            | none => none
          else if c = '[' then
            match skipWs r with
            | [] => none
            | c2 :: r2 =>
                if c2 = ']' then some (.arr [], r2)
                else
                  match parseItems fuel (c2 :: r2) with
                  | some (xs, r3) => some (.arr xs, r3)
                  | none => none
          else if c = lbrace then
            match skipWs r with
            | [] => none
            | c2 :: r2 =>
                if c2 = rbrace then some (.obj [], r2)
                else
                  match parseMembers fuel (c2 :: r2) with
                  | some (ms, r3) => some (.obj ms, r3)
                  | none => none
          else if c = '-' || isDigitP c then
            match parseIntTok (c :: r) with
            | some (i, r2) => some (.num i, r2)
            | none => none
          else none

/-- Parse one-or-more comma-separated array items, consuming the `]`. -/
def parseItems (fuel : Nat) (cs : List Char) : Option (List Json × List Char) :=
  match fuel with
  | 0 => none
  | fuel + 1 =>
      match parseVal fuel cs with
      | none => none
      | some (v, r) =>
          match skipWs r with
          | [] => none
          | c :: r2 =>
              if c = ',' then
                match parseItems fuel r2 with
                | some (vs, r3) => some (v :: vs, r3)
                | none => none
              else if c = ']' then some ([v], r2)
              else none

/-- Parse one-or-more comma-separated object members, consuming the
closing brace. -/
def parseMembers (fuel : Nat) (cs : List Char) :
    Option (List (String × Json) × List Char) :=
  match fuel with
  | 0 => none
  | fuel + 1 =>
      match skipWs cs with
      | [] => none
      | c :: r =>
          if c = '"' then
            match parseStrBody (r.length + 1) [] r with
            | none => none
            | some (k, r1) =>
                match skipWs r1 with
                | [] => none
                | c2 :: r2 =>
                    if c2 = ':' then
                      match parseVal fuel r2 with
                      | none => none
                      | some (v, r3) =>
                          match skipWs r3 with
                          | [] => none
                          | c3 :: r4 =>
                              if c3 = ',' then
                                match parseMembers fuel r4 with
                                | some (ms, r5) => some ((k, v) :: ms, r5)
                                | none => none
                              else if c3 = rbrace then some ([(k, v)], r4)
                              else none
                    else none
          else none

end

/-- `json.loads(s)` — parse a complete document, requiring only trailing
whitespace after the value. -/
def pyLoads (s : String) : Option Json :=
  match parseVal (s.toList.length + 1) s.toList with
  | some (j, r) => if (skipWs r).isEmpty then some j else none
  | none => none

/-! ## Round-trip: `pyLoads` inverts each `json.dumps` mode

The inversion is proven once against the whitespace-parameterized renderer
(`render w`), for every configuration `w` that only emits JSON whitespace
at its slots; `wsDefault`, `wsCompact` and `wsIndent2` all qualify. -/

/-- Every character of the list is JSON whitespace. -/
def AllWs (l : List Char) : Prop := ∀ c ∈ l, isWsP c = true

/-- A whitespace configuration that emits only JSON whitespace. -/
def WsOk (w : WsCfg) : Prop :=
  (∀ d, AllWs (w.afterOpen d)) ∧ (∀ d, AllWs (w.sepWs d)) ∧
    (∀ d, AllWs (w.beforeClose d)) ∧ AllWs w.afterColon

theorem wsOk_default : WsOk wsDefault := by
  refine ⟨fun d => ?_, fun d => ?_, fun d => ?_, ?_⟩ <;>
    intro c hc <;> simp [wsDefault] at hc <;> simp [hc, isWsP]

theorem wsOk_compact : WsOk wsCompact := by
  refine ⟨fun d => ?_, fun d => ?_, fun d => ?_, ?_⟩ <;>
    intro c hc <;> simp [wsCompact] at hc

theorem allWs_nl_spaces (k : Nat) : AllWs ('\n' :: List.replicate k ' ') := by
  intro c hc
  rcases List.mem_cons.mp hc with rfl | hc
  · rfl
  · rw [List.eq_of_mem_replicate hc]; rfl

theorem wsOk_indent2 : WsOk wsIndent2 :=
  ⟨fun _ => allWs_nl_spaces _, fun _ => allWs_nl_spaces _, fun _ => allWs_nl_spaces _,
   fun c hc => by rw [List.mem_singleton.mp hc]; rfl⟩

theorem skipWs_allWs {pre : List Char} (h : AllWs pre) (cs : List Char) :
    skipWs (pre ++ cs) = skipWs cs := by
  induction pre with
  | nil => rfl
  | cons c t ih =>
      have hc := h c (by simp)
      simp only [List.cons_append, skipWs, hc, if_pos]
      exact ih (fun x hx => h x (by simp [hx]))

theorem skipWs_notWs {c : Char} (h : isWsP c = false) (cs : List Char) :
    skipWs (c :: cs) = c :: cs := by
  simp [skipWs, h]

/-- Characters differ when their scalar values do. -/
theorem char_ne_of_toNat_ne {c d : Char} (h : c.toNat ≠ d.toNat) : c ≠ d :=
  fun he => h (he ▸ rfl)

theorem valid_char_of_lt {n : Nat} (h : n < 0xD800) : n.isValidChar := Or.inl h

theorem toNat_ofNat_valid {n : Nat} (h : n.isValidChar) : (Char.ofNat n).toNat = n := by
  simp only [Char.ofNat, h, dif_pos, Char.toNat, Char.ofNatAux]
  rfl

theorem decDigit_toNat {d : Nat} (h : d < 10) : (decDigit d).toNat = 48 + d :=
  toNat_ofNat_valid (valid_char_of_lt (by omega))

theorem decDigit_isDigit {d : Nat} (h : d < 10) : isDigitP (decDigit d) = true := by
  simp [isDigitP, decDigit_toNat h]; omega

theorem isDigit_toNat_range {c : Char} (h : isDigitP c = true) :
    48 ≤ c.toNat ∧ c.toNat ≤ 57 := by
  simpa [isDigitP] using h

/-- A character whose scalar value lies in `[lo, hi]` differs from any
character whose scalar value lies outside. -/
theorem ne_char_of_range {c : Char} {lo hi : Nat} (h1 : lo ≤ c.toNat)
    (h2 : c.toNat ≤ hi) (d : Char) (hd : d.toNat < lo ∨ hi < d.toNat) : c ≠ d := by
  intro he
  subst he
  omega

/-- A digit character is not whitespace and is none of the parser's
structural dispatch characters. -/
theorem digit_facts {c : Char} (h : isDigitP c = true) :
    isWsP c = false ∧ c ≠ 'n' ∧ c ≠ 't' ∧ c ≠ 'f' ∧ c ≠ '"' ∧ c ≠ '[' ∧
      c ≠ lbrace ∧ c ≠ ']' ∧ c ≠ rbrace ∧ c ≠ ',' ∧ c ≠ ':' ∧ c ≠ '-' := by
  obtain ⟨h1, h2⟩ := isDigit_toNat_range h
  refine ⟨?_, ?_, ?_, ?_, ?_, ?_, ?_, ?_, ?_, ?_, ?_, ?_⟩
  · simp only [isWsP, Bool.or_eq_false_iff, decide_eq_false_iff_not]
    exact ⟨⟨⟨ne_char_of_range h1 h2 _ (by decide), ne_char_of_range h1 h2 _ (by decide)⟩,
      ne_char_of_range h1 h2 _ (by decide)⟩, ne_char_of_range h1 h2 _ (by decide)⟩
  all_goals exact ne_char_of_range h1 h2 _ (by decide)

theorem natChars_all_digit (n : Nat) : ∀ c ∈ natChars n, isDigitP c = true := by
  induction n using Nat.strong_induction_on with
  | _ n ih =>
      rw [natChars]
      by_cases h : n < 10
      · simp only [dif_pos h, List.mem_singleton]
        rintro c rfl
        exact decDigit_isDigit h
      · simp only [dif_neg h]
        intro c hc
        rcases List.mem_append.mp hc with hc | hc
        · exact ih (n / 10) (Nat.div_lt_self (by omega) (by omega)) c hc
        · rw [List.mem_singleton] at hc
          subst hc
          exact decDigit_isDigit (Nat.mod_lt _ (by omega))

theorem natChars_ne_nil (n : Nat) : natChars n ≠ [] := by
  rw [natChars]
  by_cases h : n < 10 <;> simp [h]

theorem foldl_digits_natChars (n : Nat) :
    ∀ a : Nat, (natChars n).foldl (fun acc c => acc * 10 + (c.toNat - 48)) a
      = a * 10 ^ (natChars n).length + n := by
  induction n using Nat.strong_induction_on with
  | _ n ih =>
      intro a
      rw [natChars]
      by_cases h : n < 10
      · simp [dif_pos h, decDigit_toNat h]
      · simp only [dif_neg h, List.foldl_append, List.foldl_cons, List.foldl_nil,
          List.length_append, List.length_singleton]
        rw [ih (n / 10) (Nat.div_lt_self (by omega) (by omega)) a,
          decDigit_toNat (Nat.mod_lt _ (by omega))]
        rw [pow_succ]
        have h10 : 10 * (n / 10) + n % 10 = n := Nat.div_add_mod n 10
        ring_nf
        omega

theorem digitsToNat_natChars (n : Nat) : digitsToNat (natChars n) = n := by
  have := foldl_digits_natChars n 0
  simpa [digitsToNat] using this

/-- The remainder cannot extend a digit run: empty, or non-digit head. -/
def NotDigitStart : List Char → Prop
  | [] => True
  | c :: _ => isDigitP c = false

theorem takeDigits_stop {cs : List Char} (h : NotDigitStart cs) :
    takeDigits cs = ([], cs) := by
  match cs with
  | [] => rfl
  | c :: t => simp [takeDigits, h, NotDigitStart] at h ⊢; simp [h]

theorem takeDigits_run {ds : List Char} (hds : ∀ c ∈ ds, isDigitP c = true)
    {rest : List Char} (hrest : NotDigitStart rest) :
    takeDigits (ds ++ rest) = (ds, rest) := by
  induction ds with
  | nil => simpa using takeDigits_stop hrest
  | cons c t ih =>
      have hc := hds c (by simp)
      have ht := ih (fun x hx => hds x (by simp [hx]))
      simp [takeDigits, hc, ht]

theorem natChars_head (n : Nat) :
    ∃ c t, natChars n = c :: t ∧ isDigitP c = true := by
  match h : natChars n with
  | [] => exact absurd h (natChars_ne_nil n)
  | c :: t => exact ⟨c, t, rfl, natChars_all_digit n c (h ▸ List.mem_cons_self ..)⟩

theorem parseIntTok_minus (cs : List Char) :
    parseIntTok ('-' :: cs)
      = (if (takeDigits cs).1.isEmpty then none
         else some (-(digitsToNat (takeDigits cs).1 : Int), (takeDigits cs).2)) := by
  simp [parseIntTok]

theorem parseIntTok_nonminus {c : Char} (h : c ≠ '-') (cs : List Char) :
    parseIntTok (c :: cs)
      = (if (takeDigits (c :: cs)).1.isEmpty then none
         else some ((digitsToNat (takeDigits (c :: cs)).1 : Int),
           (takeDigits (c :: cs)).2)) := by
  simp [parseIntTok, h]

/-- `parseIntTok` inverts `intChars` whenever the remainder does not start
with a digit. -/
theorem parseIntTok_intChars (i : Int) {rest : List Char} (hr : NotDigitStart rest) :
    parseIntTok (intChars i ++ rest) = some (i, rest) := by
  obtain ⟨c, t, hn, hc⟩ := natChars_head i.natAbs
  have hrun : takeDigits (natChars i.natAbs ++ rest) = (natChars i.natAbs, rest) :=
    takeDigits_run (natChars_all_digit _) hr
  have hne : (natChars i.natAbs).isEmpty = false := by
    rw [hn]; rfl
  by_cases hi : i < 0
  · have harg : intChars i ++ rest = '-' :: (natChars i.natAbs ++ rest) := by
      simp [intChars, hi]
    rw [harg, parseIntTok_minus, hrun]
    have hv : -(digitsToNat (natChars i.natAbs) : Int) = i := by
      rw [digitsToNat_natChars]; omega
    simp [hne, hv]
  · have harg : intChars i ++ rest = c :: (t ++ rest) := by
      simp [intChars, hi, hn]
    have hcm : c ≠ '-' := (digit_facts hc).2.2.2.2.2.2.2.2.2.2.2
    have hcons : c :: (t ++ rest) = natChars i.natAbs ++ rest := by simp [hn]
    rw [harg, parseIntTok_nonminus hcm, hcons, hrun]
    have hv : ((digitsToNat (natChars i.natAbs) : Nat) : Int) = i := by
      rw [digitsToNat_natChars]; omega
    simp [hne, hv]

theorem hexVal_hexDigit : ∀ d, d < 16 → hexVal (hexDigit d) = some d := by decide

theorem hexVal4_parts {n : Nat} (h : n < 0x10000) :
    hexVal4 (hexDigit (n / 4096 % 16)) (hexDigit (n / 256 % 16))
      (hexDigit (n / 16 % 16)) (hexDigit (n % 16)) = some n := by
  rw [hexVal4, hexVal_hexDigit _ (by omega), hexVal_hexDigit _ (by omega),
    hexVal_hexDigit _ (by omega), hexVal_hexDigit _ (by omega)]
  simp only [Option.bind_eq_bind, Option.some_bind]
  exact congrArg some (by omega)

theorem char_eq_of_toNat {c : Char} {n : Nat} (h : c.toNat = n) : c = Char.ofNat n := by
  rw [← h, Char.ofNat_toNat]

theorem parseEscU_quad (k : StrK) (acc : List Char) (a b c2 d : Char)
    (rest2 : List Char) {n : Nat} (hx : hexVal4 a b c2 d = some n) :
    parseEscU k acc (a :: b :: c2 :: d :: rest2)
      = (if 0xD800 ≤ n && n ≤ 0xDBFF then parseEscSur k acc n rest2
         else if 0xDC00 ≤ n && n ≤ 0xDFFF then none
         else k (Char.ofNat n :: acc) rest2) := by
  rw [parseEscU, hx]

theorem parseEscSur_quad (k : StrK) (acc : List Char) (n : Nat)
    (a2 b2 c3 d2 : Char) (rest4 : List Char) {m : Nat}
    (hx : hexVal4 a2 b2 c3 d2 = some m) :
    parseEscSur k acc n ('\\' :: 'u' :: a2 :: b2 :: c3 :: d2 :: rest4)
      = (if 0xDC00 ≤ m && m ≤ 0xDFFF then
           k (Char.ofNat (0x10000 + (n - 0xD800) * 0x400 + (m - 0xDC00)) :: acc) rest4
         else none) := by
  rw [parseEscSur, if_pos (by decide), hx]

/-- Consuming one escaped character undoes `escChar` (one fuel step). -/
theorem parseStrBody_escChar (c : Char) (f : Nat) (acc rest : List Char) :
    parseStrBody (f + 1) acc (escChar c ++ rest) = parseStrBody f (c :: acc) rest := by
  have hvalid : Nat.isValidChar c.toNat := c.valid
  by_cases h34 : c.toNat = 34
  · rw [char_eq_of_toNat h34]; rfl
  by_cases h92 : c.toNat = 92
  · rw [char_eq_of_toNat h92]; rfl
  by_cases h10 : c.toNat = 10
  · rw [char_eq_of_toNat h10]; rfl
  by_cases h13 : c.toNat = 13
  · rw [char_eq_of_toNat h13]; rfl
  by_cases h9 : c.toNat = 9
  · rw [char_eq_of_toNat h9]; rfl
  by_cases h8 : c.toNat = 8
  · rw [char_eq_of_toNat h8]; rfl
  by_cases h12 : c.toNat = 12
  · rw [char_eq_of_toNat h12]; rfl
  by_cases hout : c.toNat < 32 || 126 < c.toNat
  · rcases Nat.lt_or_ge c.toNat 0x10000 with hlt | hge
    · -- basic-plane `\uXXXX`
      have hesc : escChar c ++ rest
          = '\\' :: 'u' :: (hexDigit (c.toNat / 4096 % 16) :: hexDigit (c.toNat / 256 % 16)
            :: hexDigit (c.toNat / 16 % 16) :: hexDigit (c.toNat % 16) :: rest) := by
        simp [escChar, h34, h92, h10, h13, h9, h8, h12, hout, hlt, hex4]
      have hsur : (0xD800 ≤ c.toNat && c.toNat ≤ 0xDBFF) = false := by
        rcases hvalid with hv1 | hv2 <;> simp <;> omega
      have hsur2 : (0xDC00 ≤ c.toNat && c.toNat ≤ 0xDFFF) = false := by
        rcases hvalid with hv1 | hv2 <;> simp <;> omega
      rw [hesc, parseStrBody, if_neg (by decide : ¬('\\' : Char) = '"'),
        if_pos (rfl : ('\\' : Char) = '\\'), parseEsc,
        if_pos (rfl : ('u' : Char) = 'u'), parseEscU_quad _ _ _ _ _ _ _ (hexVal4_parts hlt),
        hsur, hsur2]
      simp only [Bool.false_eq_true, if_false]
      rw [Char.ofNat_toNat]
    · -- astral character: surrogate pair
      have hmax : c.toNat < 0x110000 := by
        rcases hvalid with hv1 | hv2
        · omega
        · exact hv2.2
      have hiLt : 0xD800 + (c.toNat - 0x10000) / 0x400 < 0x10000 := by omega
      have loLt : 0xDC00 + (c.toNat - 0x10000) % 0x400 < 0x10000 := by
        have := Nat.mod_lt (c.toNat - 0x10000) (show 0 < 0x400 by omega)
        omega
      have hesc : escChar c ++ rest
          = '\\' :: 'u' :: (hexDigit ((0xD800 + (c.toNat - 0x10000) / 0x400) / 4096 % 16)
            :: hexDigit ((0xD800 + (c.toNat - 0x10000) / 0x400) / 256 % 16)
            :: hexDigit ((0xD800 + (c.toNat - 0x10000) / 0x400) / 16 % 16)
            :: hexDigit ((0xD800 + (c.toNat - 0x10000) / 0x400) % 16)
            :: '\\' :: 'u' :: (hexDigit ((0xDC00 + (c.toNat - 0x10000) % 0x400) / 4096 % 16)
            :: hexDigit ((0xDC00 + (c.toNat - 0x10000) % 0x400) / 256 % 16)
            :: hexDigit ((0xDC00 + (c.toNat - 0x10000) % 0x400) / 16 % 16)
            :: hexDigit ((0xDC00 + (c.toNat - 0x10000) % 0x400) % 16) :: rest)) := by
        simp [escChar, h34, h92, h10, h13, h9, h8, h12, hout, hex4, Nat.not_lt.mpr hge]
      have hhi : (0xD800 ≤ 0xD800 + (c.toNat - 0x10000) / 0x400
          && 0xD800 + (c.toNat - 0x10000) / 0x400 ≤ 0xDBFF) = true := by
        simp only [Bool.and_eq_true, decide_eq_true_eq]
        refine ⟨by omega, ?_⟩
        have : (c.toNat - 0x10000) / 0x400 ≤ 0x3FF := by omega
        omega
      have hlo : (0xDC00 ≤ 0xDC00 + (c.toNat - 0x10000) % 0x400
          && 0xDC00 + (c.toNat - 0x10000) % 0x400 ≤ 0xDFFF) = true := by
        simp only [Bool.and_eq_true, decide_eq_true_eq]
        have := Nat.mod_lt (c.toNat - 0x10000) (show 0 < 0x400 by omega)
        exact ⟨by omega, by omega⟩
      have hval : 0x10000 + ((0xD800 + (c.toNat - 0x10000) / 0x400) - 0xD800) * 0x400
          + ((0xDC00 + (c.toNat - 0x10000) % 0x400) - 0xDC00) = c.toNat := by
        have := Nat.div_add_mod (c.toNat - 0x10000) 0x400
        omega
      rw [hesc, parseStrBody, if_neg (by decide : ¬('\\' : Char) = '"'),
        if_pos (rfl : ('\\' : Char) = '\\'), parseEsc,
        if_pos (rfl : ('u' : Char) = 'u'), parseEscU_quad _ _ _ _ _ _ _ (hexVal4_parts hiLt),
        hhi]
      simp only [if_true]
      rw [parseEscSur_quad _ _ _ _ _ _ _ _ (hexVal4_parts loLt), hlo]
      simp only [if_true]
      rw [hval, Char.ofNat_toNat]
  · -- printable ASCII other than `"` and `\`: passthrough
    have hesc : escChar c ++ rest = c :: rest := by
      simp [escChar, h34, h92, h10, h13, h9, h8, h12, hout]
    rw [hesc]
    have hne34 : ¬c = '"' := fun he => h34 (by rw [he]; rfl)
    have hne92 : ¬c = '\\' := fun he => h92 (by rw [he]; rfl)
    have hge32 : ¬c.toNat < 32 := by
      simp only [Bool.or_eq_true, decide_eq_true_eq, not_or, Nat.not_lt] at hout
      omega
    show parseStrBody (f + 1) acc (c :: rest) = _
    rw [parseStrBody]
    simp only [if_neg hne34, if_neg hne92, if_neg hge32]

/-- Consuming an escaped body stops exactly at the closing quote; any fuel
beyond the character count suffices. -/
theorem parseStrBody_body (l : List Char) : ∀ (f : Nat) (acc rest : List Char),
    l.length < f →
    parseStrBody f acc (l.flatMap escChar ++ '"' :: rest)
      = some (String.mk (acc.reverse ++ l), rest) := by
  induction l with
  | nil =>
      intro f acc rest hf
      match f, hf with
      | f + 1, _ => simp [parseStrBody]
  | cons c cs ih =>
      intro f acc rest hf
      match f, hf with
      | f + 1, hf =>
          rw [List.flatMap_cons, List.append_assoc, parseStrBody_escChar,
            ih f (c :: acc) rest (by simpa using Nat.lt_of_succ_lt_succ hf)]
          simp

/-- The string-literal round trip: parsing a rendered string recovers it. -/
theorem parseStrBody_strChars (s : String) {f : Nat} (hf : s.toList.length < f)
    (rest : List Char) :
    parseStrBody f [] (s.toList.flatMap escChar ++ '"' :: rest) = some (s, rest) := by
  rw [parseStrBody_body _ _ _ _ hf]
  rfl

theorem ws_not_digit {c : Char} (h : isWsP c = true) : isDigitP c = false := by
  simp only [isWsP, Bool.or_eq_true, decide_eq_true_eq] at h
  rcases h with ((h | h) | h) | h <;> subst h <;> rfl

theorem ndStart_wsAppend {bc : List Char} (h : AllWs bc) {c : Char}
    (hc : isDigitP c = false) (rest : List Char) :
    NotDigitStart (bc ++ c :: rest) := by
  cases bc with
  | nil => exact hc
  | cons b t => exact ws_not_digit (h b (by simp))

theorem escChar_ne_nil (c : Char) : escChar c ≠ [] := by
  rw [escChar]
  split_ifs <;> simp

theorem escBody_le_len (l : List Char) : l.length ≤ (l.flatMap escChar).length := by
  induction l with
  | nil => simp
  | cons c cs ih =>
      rw [List.flatMap_cons, List.length_append, List.length_cons]
      have h1 : 1 ≤ (escChar c).length := by
        rcases List.eq_nil_or_concat (escChar c) with h | ⟨t, a, h⟩
        · exact absurd h (escChar_ne_nil c)
        · rw [h]; simp
      omega

/-- Unfold the renderer on a nonempty array. -/
theorem render_arr_cons (w : WsCfg) (d : Nat) (x : Json) (xs : List Json) :
    render w d (.arr (x :: xs))
      = '[' :: (w.afterOpen d
          ++ joinPieces (',' :: w.sepWs d) ((x :: xs).map (render w (d + 1)))
          ++ w.beforeClose d ++ [']']) := by
  rw [render]
  simp

theorem attach_map_members (w : WsCfg) (d : Nat) (l : List (String × Json)) :
    (l.attach.map (fun kv =>
        strChars kv.1.1 ++ ':' :: (w.afterColon ++ render w (d + 1) kv.1.2)))
      = l.map (fun m => strChars m.1 ++ ':' :: (w.afterColon ++ render w (d + 1) m.2)) := by
  induction l with
  | nil => rfl
  | cons x xs ih =>
      simp only [List.attach_cons, List.map_cons, List.map_map, Function.comp_def] at ih ⊢
      rw [ih]

/-- Unfold the renderer on a nonempty object. -/
theorem render_obj_cons (w : WsCfg) (d : Nat) (kv : String × Json)
    (kvs : List (String × Json)) :
    render w d (.obj (kv :: kvs))
      = lbrace :: (w.afterOpen d
          ++ joinPieces (',' :: w.sepWs d)
              ((kv :: kvs).map (fun m =>
                strChars m.1 ++ ':' :: (w.afterColon ++ render w (d + 1) m.2)))
          ++ w.beforeClose d ++ [rbrace]) := by
  rw [render, attach_map_members]
  simp

/-- With fuel at least the term size, the structural renderer agrees with
`render`. -/
theorem renderS_eq : ∀ (j : Json) (fuel : Nat), Json.jsize j ≤ fuel →
    ∀ (w : WsCfg) (d : Nat), renderS fuel w d j = render w d j := by
  intro j
  induction j using Json.inductionOn with
  | hnull =>
      intro fuel hf w d
      cases fuel with
      | zero => simp [Json.jsize] at hf
      | succ f =>
          rw [show render w d Json.null = ['n', 'u', 'l', 'l'] by rw [render]; try rfl]
          rfl
  | hbool b =>
      intro fuel hf w d
      cases fuel with
      | zero => simp [Json.jsize] at hf
      | succ f => cases b <;> (rw [render]; rfl)
  | hnum n =>
      intro fuel hf w d
      cases fuel with
      | zero => simp [Json.jsize] at hf
      | succ f =>
          rw [render]
          exact intCharsS_eq n
  | hstr t =>
      intro fuel hf w d
      cases fuel with
      | zero => simp [Json.jsize] at hf
      | succ f => rw [render]; rfl
  | harr xs ih =>
      intro fuel hf w d
      cases fuel with
      | zero => have := Json.jsize_pos (Json.arr xs); omega
      | succ f =>
          cases xs with
          | nil =>
              rw [show render w d (Json.arr []) = ['[', ']'] by rw [render]; rfl]
              rfl
          | cons x xs2 =>
              have hm : ∀ y ∈ x :: xs2, renderS f w (d + 1) y = render w (d + 1) y := by
                intro y hy
                have h1 := Json.jsize_lt_arr hy
                exact ih y hy f (by omega) w (d + 1)
              rw [render_arr_cons]
              simp only [renderS, List.isEmpty_cons, Bool.false_eq_true, if_false,
                List.map_congr_left hm]
  | hobj kvs ih =>
      intro fuel hf w d
      cases fuel with
      | zero => have := Json.jsize_pos (Json.obj kvs); omega
      | succ f =>
          cases kvs with
          | nil =>
              rw [show render w d (Json.obj []) = [lbrace, rbrace] by rw [render]; rfl]
              rfl
          | cons kv kvs2 =>
              have hm : ∀ y ∈ kv :: kvs2,
                  (strChars y.1 ++ ':' :: (w.afterColon ++ renderS f w (d + 1) y.2))
                    = strChars y.1 ++ ':' :: (w.afterColon ++ render w (d + 1) y.2) := by
                intro y hy
                have h1 := Json.jsize_lt_obj hy
                rw [ih y hy f (by omega) w (d + 1)]
              rw [render_obj_cons]
              simp only [renderS, List.isEmpty_cons, Bool.false_eq_true, if_false,
                List.map_congr_left hm]

/-- Every rendered value begins with a non-whitespace character that closes
no container and is no comma. -/
theorem renderHead (w : WsCfg) (d : Nat) (j : Json) :
    ∃ c t, render w d j = c :: t ∧ isWsP c = false ∧ c ≠ ']' ∧ c ≠ rbrace ∧ c ≠ ',' := by
  cases j with
  | null => exact ⟨'n', _, by rw [render]; try rfl, by decide, by decide, by decide, by decide⟩
  | bool b =>
      cases b with
      | true => exact ⟨'t', _, by rw [render]; try rfl, by decide, by decide, by decide, by decide⟩
      | false => exact ⟨'f', _, by rw [render]; try rfl, by decide, by decide, by decide, by decide⟩
  | num i =>
      by_cases hi : i < 0
      · refine ⟨'-', natChars i.natAbs, ?_, by decide, by decide, by decide, by decide⟩
        rw [render]
        simp [intChars, hi]
      · obtain ⟨c, t, hn, hc⟩ := natChars_head i.natAbs
        obtain ⟨hws, _, _, _, _, _, _, hbr, hbc, hcm, _, _⟩ := digit_facts hc
        refine ⟨c, t, ?_, hws, hbr, hbc, hcm⟩
        rw [render]
        simp [intChars, hi, hn]
  | str s =>
      exact ⟨'"', _, by rw [render]; rfl, by decide, by decide, by decide, by decide⟩
  | arr xs =>
      cases xs with
      | nil => exact ⟨'[', _, by rw [render]; rfl, by decide, by decide, by decide, by decide⟩
      | cons x xs =>
          exact ⟨'[', _, render_arr_cons w d x xs, by decide, by decide, by decide, by decide⟩
  | obj kvs =>
      cases kvs with
      | nil =>
          exact ⟨lbrace, _, by rw [render]; rfl, by decide, by decide, by decide, by decide⟩
      | cons kv kvs =>
          exact ⟨lbrace, _, render_obj_cons w d kv kvs,
            by decide, by decide, by decide, by decide⟩

/-- Parsing is insensitive to leading whitespace (any fuel). -/
theorem parseVal_ws {pre : List Char} (hpre : AllWs pre) (fuel : Nat) (cs : List Char) :
    parseVal fuel (pre ++ cs) = parseVal fuel cs := by
  cases fuel with
  | zero => rfl
  | succ f => rw [parseVal, parseVal, skipWs_allWs hpre]

theorem parseItems_ws {pre : List Char} (hpre : AllWs pre) (fuel : Nat) (cs : List Char) :
    parseItems fuel (pre ++ cs) = parseItems fuel cs := by
  cases fuel with
  | zero => rfl
  | succ f => rw [parseItems, parseItems, parseVal_ws hpre]

theorem parseMembers_ws {pre : List Char} (hpre : AllWs pre) (fuel : Nat)
    (cs : List Char) :
    parseMembers fuel (pre ++ cs) = parseMembers fuel cs := by
  cases fuel with
  | zero => rfl
  | succ f => rw [parseMembers, parseMembers, skipWs_allWs hpre]

/-- The parser's string branch (definitional). -/
theorem parseVal_str_dispatch (f : Nat) (r : List Char) :
    parseVal (f + 1) ('"' :: r)
      = (match parseStrBody (r.length + 1) [] r with
         | some (s, r2) => some (.str s, r2)
         | none => none) := rfl

/-- The parser's number branch, reached when the head is `-` or a digit. -/
theorem parseVal_num_dispatch (f : Nat) {c0 : Char} (t : List Char)
    (hws : isWsP c0 = false) (h1 : ¬c0 = 'n') (h2 : ¬c0 = 't') (h3 : ¬c0 = 'f')
    (h4 : ¬c0 = '"') (h5 : ¬c0 = '[') (h6 : ¬c0 = lbrace)
    (h7 : (c0 = '-' || isDigitP c0) = true) :
    parseVal (f + 1) (c0 :: t)
      = (match parseIntTok (c0 :: t) with
         | some (i, r2) => some (.num i, r2)
         | none => none) := by
  rw [parseVal, skipWs_notWs hws]
  simp only [if_neg h1, if_neg h2, if_neg h3, if_neg h4, if_neg h5, if_neg h6, h7, if_true]

/-- The parser's array branch on a nonempty body. -/
theorem parseVal_arr_dispatch (f : Nat) {pre : List Char} (hpre : AllWs pre)
    {c2 : Char} (hw2 : isWsP c2 = false) (hbr : ¬c2 = ']') (r2 : List Char) :
    parseVal (f + 1) ('[' :: (pre ++ c2 :: r2))
      = (match parseItems f (c2 :: r2) with
         | some (xs, r3) => some (.arr xs, r3)
         | none => none) := by
  rw [parseVal, skipWs_notWs (by decide : isWsP '[' = false)]
  simp only [if_neg (by decide : ¬('[' : Char) = 'n'),
    if_neg (by decide : ¬('[' : Char) = 't'), if_neg (by decide : ¬('[' : Char) = 'f'),
    if_neg (by decide : ¬('[' : Char) = '"'), if_pos (rfl : ('[' : Char) = '['), if_true]
  rw [skipWs_allWs hpre, skipWs_notWs hw2]
  simp only [if_neg hbr]

/-- The parser's object branch on a nonempty body. -/
theorem parseVal_obj_dispatch (f : Nat) {pre : List Char} (hpre : AllWs pre)
    {c2 : Char} (hw2 : isWsP c2 = false) (hbr : ¬c2 = rbrace) (r2 : List Char) :
    parseVal (f + 1) (lbrace :: (pre ++ c2 :: r2))
      = (match parseMembers f (c2 :: r2) with
         | some (ms, r3) => some (.obj ms, r3)
         | none => none) := by
  rw [parseVal, skipWs_notWs (by decide : isWsP lbrace = false)]
  simp only [if_neg (by decide : ¬lbrace = 'n'),
    if_neg (by decide : ¬lbrace = 't'), if_neg (by decide : ¬lbrace = 'f'),
    if_neg (by decide : ¬lbrace = '"'), if_neg (by decide : ¬lbrace = '['),
    if_pos (rfl : lbrace = lbrace), if_true]
  rw [skipWs_allWs hpre, skipWs_notWs hw2]
  simp only [if_neg hbr]

/-- One-step unfolding of `parseItems` at successor fuel (definitional). -/
theorem parseItems_step (f : Nat) (cs : List Char) :
    parseItems (f + 1) cs
      = (match parseVal f cs with
         | none => none
         | some (v, r) =>
             match skipWs r with
             | [] => none
             | c :: r2 =>
                 if c = ',' then
                   match parseItems f r2 with
                   | some (vs, r3) => some (v :: vs, r3)
                   | none => none
                 else if c = ']' then some ([v], r2)
                 else none) := rfl

/-- One-step unfolding of `parseMembers` at successor fuel (definitional). -/
theorem parseMembers_step (f : Nat) (cs : List Char) :
    parseMembers (f + 1) cs
      = (match skipWs cs with
         | [] => none
         | c :: r =>
             if c = '"' then
               match parseStrBody (r.length + 1) [] r with
               | none => none
               | some (k, r1) =>
                   match skipWs r1 with
                   | [] => none
                   | c2 :: r2 =>
                       if c2 = ':' then
                         match parseVal f r2 with
                         | none => none
                         | some (v, r3) =>
                             match skipWs r3 with
                             | [] => none
                             | c3 :: r4 =>
                                 if c3 = ',' then
                                   match parseMembers f r4 with
                                   | some (ms, r5) => some ((k, v) :: ms, r5)
                                   | none => none
                                 else if c3 = rbrace then some ([(k, v)], r4)
                                 else none
                       else none
             else none) := rfl

theorem joinPieces_single (sep : List Char) (p : List Char) :
    joinPieces sep [p] = p := rfl

theorem joinPieces_cons2 (sep p q : List Char) (ps : List (List Char)) :
    joinPieces sep (p :: q :: ps) = p ++ (sep ++ joinPieces sep (q :: ps)) := by
  rw [joinPieces]
  simp

theorem joinPieces_cons_map {α : Type} (sep p : List Char) (g : α → List Char)
    (y : α) (ys : List α) :
    joinPieces sep (p :: (y :: ys).map g)
      = p ++ (sep ++ joinPieces sep ((y :: ys).map g)) := by
  rw [List.map_cons, joinPieces_cons2, ← List.map_cons]

/-- Everything after the first rendered array item. -/
def joinTailA (w : WsCfg) (d : Nat) : List Json → List Char
  | [] => []
  | y :: ys => (',' :: w.sepWs d)
      ++ joinPieces (',' :: w.sepWs d) ((y :: ys).map (render w (d + 1)))

/-- Everything after the first rendered object member. -/
def joinTailM (w : WsCfg) (d : Nat) : List (String × Json) → List Char
  | [] => []
  | l :: ls => (',' :: w.sepWs d)
      ++ joinPieces (',' :: w.sepWs d) ((l :: ls).map (fun m =>
          strChars m.1 ++ ':' :: (w.afterColon ++ render w (d + 1) m.2)))

theorem joinPieces_arr_split (w : WsCfg) (d : Nat) (x : Json) (xs : List Json) :
    joinPieces (',' :: w.sepWs d) ((x :: xs).map (render w (d + 1)))
      = render w (d + 1) x ++ joinTailA w d xs := by
  cases xs with
  | nil => simp [joinTailA, joinPieces_single]
  | cons y ys => rw [List.map_cons, List.map_cons, joinPieces_cons2, joinTailA, List.map_cons]

theorem joinPieces_obj_split (w : WsCfg) (d : Nat) (kv : String × Json)
    (kvs : List (String × Json)) :
    joinPieces (',' :: w.sepWs d) ((kv :: kvs).map (fun m =>
        strChars m.1 ++ ':' :: (w.afterColon ++ render w (d + 1) m.2)))
      = (strChars kv.1 ++ ':' :: (w.afterColon ++ render w (d + 1) kv.2))
        ++ joinTailM w d kvs := by
  cases kvs with
  | nil => simp [joinTailM, joinPieces_single]
  | cons l ls => rw [List.map_cons, List.map_cons, joinPieces_cons2, joinTailM, List.map_cons]

mutual

theorem rtVal (w : WsCfg) (hw : WsOk w) :
    ∀ (j : Json) (d fuel : Nat) (rest : List Char),
      (render w d j).length < fuel → NotDigitStart rest →
      parseVal fuel (render w d j ++ rest) = some (j, rest)
  | .null, d, fuel, rest, hf, _ => by
      cases fuel with
      | zero => rw [show render w d .null = ['n', 'u', 'l', 'l'] by rw [render]; try rfl] at hf; simp at hf
      | succ f => rw [show render w d .null = ['n', 'u', 'l', 'l'] by rw [render]; try rfl]; rfl
  | .bool true, d, fuel, rest, hf, _ => by
      cases fuel with
      | zero =>
          rw [show render w d (.bool true) = ['t', 'r', 'u', 'e'] by rw [render]; try rfl] at hf
          simp at hf
      | succ f => rw [show render w d (.bool true) = ['t', 'r', 'u', 'e'] by rw [render]; try rfl]; rfl
  | .bool false, d, fuel, rest, hf, _ => by
      cases fuel with
      | zero =>
          rw [show render w d (.bool false) = ['f', 'a', 'l', 's', 'e'] by rw [render]; try rfl] at hf
          simp at hf
      | succ f =>
          rw [show render w d (.bool false) = ['f', 'a', 'l', 's', 'e'] by rw [render]; try rfl]; rfl
  | .num i, d, fuel, rest, hf, hr => by
      rw [show render w d (.num i) = intChars i by rw [render]; try rfl] at hf ⊢
      cases fuel with
      | zero => omega
      | succ f =>
          by_cases hi : i < 0
          · have harg : intChars i ++ rest = '-' :: (natChars i.natAbs ++ rest) := by
              simp [intChars, hi]
            rw [harg, parseVal_num_dispatch f _ (by decide) (by decide) (by decide)
              (by decide) (by decide) (by decide) (by decide) (by decide), ← harg,
              parseIntTok_intChars i hr]
          · obtain ⟨c, t, hn, hc⟩ := natChars_head i.natAbs
            obtain ⟨hws, f1, f2, f3, f4, f5, f6, _, _, _, _, _⟩ := digit_facts hc
            have harg : intChars i ++ rest = c :: (t ++ rest) := by
              simp [intChars, hi, hn]
            rw [harg, parseVal_num_dispatch f _ hws f1 f2 f3 f4 f5 f6 (by simp [hc]),
              ← harg, parseIntTok_intChars i hr]
  | .str s, d, fuel, rest, hf, _ => by
      rw [show render w d (.str s) = '"' :: (s.toList.flatMap escChar ++ ['"'])
        by rw [render]; rfl] at hf ⊢
      cases fuel with
      | zero => simp at hf
      | succ f =>
          have harg : ('"' :: (s.toList.flatMap escChar ++ ['"'])) ++ rest
              = '"' :: (s.toList.flatMap escChar ++ '"' :: rest) := by simp
          have hlen : s.toList.length
              < (s.toList.flatMap escChar ++ '"' :: rest).length + 1 := by
            have := escBody_le_len s.toList
            simp only [List.length_append, List.length_cons]
            omega
          rw [harg, parseVal_str_dispatch, parseStrBody_strChars s hlen rest]
  | .arr [], d, fuel, rest, hf, _ => by
      cases fuel with
      | zero => rw [show render w d (.arr []) = ['[', ']'] by rw [render]; rfl] at hf; simp at hf
      | succ f => rw [show render w d (.arr []) = ['[', ']'] by rw [render]; rfl]; rfl
  | .arr (x :: xs), d, fuel, rest, hf, _ => by
      rw [render_arr_cons] at hf ⊢
      cases fuel with
      | zero => simp at hf
      | succ f =>
          obtain ⟨c2, t2, hx, hxws, hxbr, _, _⟩ := renderHead w (d + 1) x
          have hJhead : joinPieces (',' :: w.sepWs d) ((x :: xs).map (render w (d + 1)))
              ++ (w.beforeClose d ++ ']' :: rest)
              = c2 :: ((t2 ++ joinTailA w d xs) ++ (w.beforeClose d ++ ']' :: rest)) := by
            rw [joinPieces_arr_split, hx]
            simp
          have harg : ('[' :: (w.afterOpen d
                ++ joinPieces (',' :: w.sepWs d) ((x :: xs).map (render w (d + 1)))
                ++ w.beforeClose d ++ [']'])) ++ rest
              = '[' :: (w.afterOpen d
                  ++ (joinPieces (',' :: w.sepWs d) ((x :: xs).map (render w (d + 1)))
                    ++ (w.beforeClose d ++ ']' :: rest))) := by simp
          have hlen : (joinPieces (',' :: w.sepWs d)
              ((x :: xs).map (render w (d + 1)))).length + 1 < f := by
            simp only [List.length_cons, List.length_append] at hf
            omega
          rw [harg, hJhead, parseVal_arr_dispatch f (hw.1 d) hxws hxbr, ← hJhead,
            rtItems w hw x xs d f rest hlen]
  | .obj [], d, fuel, rest, hf, _ => by
      cases fuel with
      | zero =>
          rw [show render w d (.obj []) = [lbrace, rbrace] by rw [render]; rfl] at hf
          simp at hf
      | succ f => rw [show render w d (.obj []) = [lbrace, rbrace] by rw [render]; rfl]; rfl
  | .obj (kv :: kvs), d, fuel, rest, hf, _ => by
      rw [render_obj_cons] at hf ⊢
      cases fuel with
      | zero => simp at hf
      | succ f =>
          have hJhead : joinPieces (',' :: w.sepWs d)
              ((kv :: kvs).map (fun m =>
                strChars m.1 ++ ':' :: (w.afterColon ++ render w (d + 1) m.2)))
              ++ (w.beforeClose d ++ rbrace :: rest)
              = '"' :: (((kv.1.toList.flatMap escChar
                  ++ '"' :: (':' :: (w.afterColon ++ render w (d + 1) kv.2)))
                ++ joinTailM w d kvs)
                ++ (w.beforeClose d ++ rbrace :: rest)) := by
            rw [joinPieces_obj_split]
            simp [strChars]
          have harg : (lbrace :: (w.afterOpen d
                ++ joinPieces (',' :: w.sepWs d)
                    ((kv :: kvs).map (fun m =>
                      strChars m.1 ++ ':' :: (w.afterColon ++ render w (d + 1) m.2)))
                ++ w.beforeClose d ++ [rbrace])) ++ rest
              = lbrace :: (w.afterOpen d
                  ++ (joinPieces (',' :: w.sepWs d)
                      ((kv :: kvs).map (fun m =>
                        strChars m.1 ++ ':' :: (w.afterColon ++ render w (d + 1) m.2)))
                    ++ (w.beforeClose d ++ rbrace :: rest))) := by simp
          have hlen : (joinPieces (',' :: w.sepWs d)
              ((kv :: kvs).map (fun m =>
                strChars m.1 ++ ':' :: (w.afterColon ++ render w (d + 1) m.2)))).length + 1
              < f := by
            simp only [List.length_cons, List.length_append] at hf
            omega
          rw [harg, hJhead, parseVal_obj_dispatch f (hw.1 d) (by decide) (by decide),
            ← hJhead, rtMembers w hw kv kvs d f rest hlen]
termination_by j d fuel rest hf hr => 2 * Json.jsize j
decreasing_by
  all_goals simp_wf
  all_goals simp only [Json.jsize, Json.jsizeArr, Json.jsizeObj]
  all_goals omega

theorem rtItems (w : WsCfg) (hw : WsOk w) :
    ∀ (x : Json) (xs : List Json) (d fuel : Nat) (rest : List Char),
      (joinPieces (',' :: w.sepWs d) ((x :: xs).map (render w (d + 1)))).length + 1 < fuel →
      parseItems fuel (joinPieces (',' :: w.sepWs d) ((x :: xs).map (render w (d + 1)))
          ++ (w.beforeClose d ++ ']' :: rest))
        = some (x :: xs, rest)
  | x, [], d, fuel, rest, hf => by
      rw [List.map_cons, List.map_nil, joinPieces_single] at hf ⊢
      cases fuel with
      | zero => omega
      | succ f =>
          simp only [parseItems_step,
            rtVal w hw x (d + 1) f (w.beforeClose d ++ ']' :: rest) (by omega)
              (ndStart_wsAppend (hw.2.2.1 d) (by decide) rest),
            skipWs_allWs (hw.2.2.1 d), skipWs_notWs (by decide : isWsP ']' = false)]
          rfl
  | x, y :: ys, d, fuel, rest, hf => by
      rw [List.map_cons, joinPieces_cons_map] at hf ⊢
      cases fuel with
      | zero => omega
      | succ f =>
          have harg : (render w (d + 1) x ++ ((',' :: w.sepWs d)
                ++ joinPieces (',' :: w.sepWs d) ((y :: ys).map (render w (d + 1)))))
              ++ (w.beforeClose d ++ ']' :: rest)
              = render w (d + 1) x ++ (',' :: (w.sepWs d
                ++ (joinPieces (',' :: w.sepWs d) ((y :: ys).map (render w (d + 1)))
                  ++ (w.beforeClose d ++ ']' :: rest)))) := by simp
          have hlx : (render w (d + 1) x).length < f := by
            simp only [List.length_append, List.length_cons] at hf
            omega
          have hltail : (joinPieces (',' :: w.sepWs d)
              ((y :: ys).map (render w (d + 1)))).length + 1 < f := by
            simp only [List.length_append, List.length_cons] at hf
            omega
          rw [harg]
          have hrv := rtVal w hw x (d + 1) f (',' :: (w.sepWs d
              ++ (joinPieces (',' :: w.sepWs d) ((y :: ys).map (render w (d + 1)))
                ++ (w.beforeClose d ++ ']' :: rest)))) hlx (by rfl)
          simp only [parseItems_step, hrv,
            skipWs_notWs (by decide : isWsP ',' = false),
            parseItems_ws (hw.2.1 d), rtItems w hw y ys d f rest hltail]
          rfl
termination_by x xs d fuel rest hf => 2 * (Json.jsize x + Json.jsizeArr xs) + 1
decreasing_by
  all_goals simp_wf
  all_goals simp only [Json.jsize, Json.jsizeArr, Json.jsizeObj]
  all_goals try omega
  all_goals have hp := Json.jsize_pos x
  all_goals omega

theorem rtMembers (w : WsCfg) (hw : WsOk w) :
    ∀ (kv : String × Json) (kvs : List (String × Json)) (d fuel : Nat) (rest : List Char),
      (joinPieces (',' :: w.sepWs d) ((kv :: kvs).map (fun m =>
          strChars m.1 ++ ':' :: (w.afterColon ++ render w (d + 1) m.2)))).length + 1
        < fuel →
      parseMembers fuel (joinPieces (',' :: w.sepWs d) ((kv :: kvs).map (fun m =>
            strChars m.1 ++ ':' :: (w.afterColon ++ render w (d + 1) m.2)))
          ++ (w.beforeClose d ++ rbrace :: rest))
        = some (kv :: kvs, rest)
  | kv, [], d, fuel, rest, hf => by
      rw [List.map_cons, List.map_nil, joinPieces_single] at hf ⊢
      cases fuel with
      | zero => omega
      | succ f =>
          have harg : (strChars kv.1 ++ ':' :: (w.afterColon ++ render w (d + 1) kv.2))
                ++ (w.beforeClose d ++ rbrace :: rest)
              = '"' :: (kv.1.toList.flatMap escChar
                  ++ '"' :: (':' :: (w.afterColon ++ (render w (d + 1) kv.2
                    ++ (w.beforeClose d ++ rbrace :: rest))))) := by
            simp [strChars]
          have hkey : kv.1.toList.length
              < (kv.1.toList.flatMap escChar
                  ++ '"' :: (':' :: (w.afterColon ++ (render w (d + 1) kv.2
                    ++ (w.beforeClose d ++ rbrace :: rest))))).length + 1 := by
            have := escBody_le_len kv.1.toList
            simp only [List.length_append, List.length_cons]
            omega
          have hlv : (render w (d + 1) kv.2).length < f := by
            simp only [List.length_append, List.length_cons] at hf
            omega
          rw [harg]
          have hrv := rtVal w hw kv.2 (d + 1) f (w.beforeClose d ++ rbrace :: rest) hlv
            (ndStart_wsAppend (hw.2.2.1 d) (by decide) rest)
          simp only [parseMembers_step, skipWs_notWs (by decide : isWsP '"' = false),
            parseStrBody_strChars kv.1 hkey,
            skipWs_notWs (by decide : isWsP ':' = false),
            parseVal_ws hw.2.2.2, hrv,
            skipWs_allWs (hw.2.2.1 d), skipWs_notWs (by decide : isWsP rbrace = false)]
          rfl
  | kv, l :: ls, d, fuel, rest, hf => by
      rw [List.map_cons, joinPieces_cons_map] at hf ⊢
      cases fuel with
      | zero => omega
      | succ f =>
          have harg : ((strChars kv.1 ++ ':' :: (w.afterColon ++ render w (d + 1) kv.2))
                ++ ((',' :: w.sepWs d)
                  ++ joinPieces (',' :: w.sepWs d) ((l :: ls).map (fun m =>
                      strChars m.1 ++ ':' :: (w.afterColon ++ render w (d + 1) m.2)))))
              ++ (w.beforeClose d ++ rbrace :: rest)
              = '"' :: (kv.1.toList.flatMap escChar
                  ++ '"' :: (':' :: (w.afterColon ++ (render w (d + 1) kv.2
                    ++ (',' :: (w.sepWs d
                      ++ (joinPieces (',' :: w.sepWs d) ((l :: ls).map (fun m =>
                          strChars m.1 ++ ':' :: (w.afterColon ++ render w (d + 1) m.2)))
                        ++ (w.beforeClose d ++ rbrace :: rest)))))))) := by
            simp [strChars]
          have hkey : kv.1.toList.length
              < (kv.1.toList.flatMap escChar
                  ++ '"' :: (':' :: (w.afterColon ++ (render w (d + 1) kv.2
                    ++ (',' :: (w.sepWs d
                      ++ (joinPieces (',' :: w.sepWs d) ((l :: ls).map (fun m =>
                          strChars m.1 ++ ':' :: (w.afterColon ++ render w (d + 1) m.2)))
                        ++ (w.beforeClose d ++ rbrace :: rest)))))))).length + 1 := by
            have := escBody_le_len kv.1.toList
            simp only [List.length_append, List.length_cons]
            omega
          have hlv : (render w (d + 1) kv.2).length < f := by
            simp only [List.length_append, List.length_cons] at hf
            omega
          have hltail : (joinPieces (',' :: w.sepWs d) ((l :: ls).map (fun m =>
              strChars m.1 ++ ':' :: (w.afterColon ++ render w (d + 1) m.2)))).length + 1
              < f := by
            simp only [List.length_append, List.length_cons] at hf
            omega
          rw [harg]
          have hrv := rtVal w hw kv.2 (d + 1) f (',' :: (w.sepWs d
              ++ (joinPieces (',' :: w.sepWs d) ((l :: ls).map (fun m =>
                  strChars m.1 ++ ':' :: (w.afterColon ++ render w (d + 1) m.2)))
                ++ (w.beforeClose d ++ rbrace :: rest)))) hlv (by rfl)
          simp only [parseMembers_step, skipWs_notWs (by decide : isWsP '"' = false),
            parseStrBody_strChars kv.1 hkey,
            skipWs_notWs (by decide : isWsP ':' = false),
            parseVal_ws hw.2.2.2, hrv,
            skipWs_notWs (by decide : isWsP ',' = false),
            parseMembers_ws (hw.2.1 d), rtMembers w hw l ls d f rest hltail]
          rfl
termination_by kv kvs d fuel rest hf => 2 * (Json.jsize kv.2 + Json.jsizeObj kvs) + 1
decreasing_by
  all_goals simp_wf
  all_goals simp only [Json.jsize, Json.jsizeArr, Json.jsizeObj]
  all_goals try omega
  all_goals have hp := Json.jsize_pos kv.2
  all_goals omega

end

/-- The whitespace-parameterized round trip at top level: `pyLoads` recovers
any value rendered with a JSON-whitespace-only configuration. -/
theorem pyLoads_render (w : WsCfg) (hw : WsOk w) (j : Json) :
    pyLoads (String.mk (render w 0 j)) = some j := by
  have h := rtVal w hw j 0 ((render w 0 j).length + 1) [] (by omega) trivial
  rw [List.append_nil] at h
  have hs : (String.mk (render w 0 j)).toList = render w 0 j := rfl
  rw [pyLoads, hs]
  simp only [h]
  rfl

/-- `json.loads(json.dumps(x))` recovers `x` (default separators). -/
theorem pyLoads_pyDumps (j : Json) : pyLoads (pyDumps j) = some j := by
  rw [pyDumps, renderS_eq j (Json.jsize j) le_rfl]
  exact pyLoads_render wsDefault wsOk_default j

/-- `json.loads(json.dumps(x, indent=2))` recovers `x` (pretty mode). -/
theorem pyLoads_pyDumpsIndent2 (j : Json) : pyLoads (pyDumpsIndent2 j) = some j := by
  rw [pyDumpsIndent2, renderS_eq j (Json.jsize j) le_rfl]
  exact pyLoads_render wsIndent2 wsOk_indent2 j

/-- `json.loads` of the canonical (sorted, compact) form recovers the
key-sorted value. -/
theorem pyLoads_pyDumpsCanonical (j : Json) :
    pyLoads (pyDumpsCanonical j) = some (sortKeys j) :=
  pyLoads_render wsCompact wsOk_compact (sortKeys j)

/-! ## Regular expressions — the fragment of Python `re` the PII patterns use

A backtracking matcher.  `cands re prev s` lists every way `re` can match a
prefix of `s`, in Python preference order: greedy repetition tries more
copies first, alternation tries the left branch first, so the head of the
list is the match Python reports.  The character just before the current
position is threaded through as `prev` for the zero-width word boundary
`\b`.  Each candidate carries the character preceding the remainder and the
remainder itself. -/

inductive RE where
  | cls (p : Char → Bool)
  | eps
  | seq (a b : RE)
  | alt (a b : RE)
  | many (a : RE)
  | wordB

/-- Python `\w` (ASCII range, which covers the texts in scope). -/
def isWordC (c : Char) : Bool :=
  ('a' ≤ c && c ≤ 'z') || ('A' ≤ c && c ≤ 'Z') || isDigitP c || c = '_'

/-- Boundary `\b` holds where exactly one side of the position is a word character. -/
def atWordB (prev : Option Char) (s : List Char) : Bool :=
  let l := match prev with | none => false | some c => isWordC c
  let r := match s with | [] => false | c :: _ => isWordC c
  l != r

/-- Syntactic size of a pattern, the depth component of the matcher fuel. -/
def reSize : RE → Nat
  | .cls _ => 1
  | .eps => 1
  | .wordB => 1
  | .seq a b => reSize a + reSize b + 1
  | .alt a b => reSize a + reSize b + 1
  | .many a => reSize a + 1

/-- All prefix matches, best (Python-reported) first, on explicit fuel: one
unit per pattern-constructor step along a match path.  Greedy `a*` prefers
more iterations and each iteration must consume at least one character
(every repeated body in the source's patterns does, so the fuel `cands`
supplies below never runs out on them). -/
def candsF : Nat → RE → Option Char → List Char → List (Option Char × List Char)
  | 0, _, _, _ => []
  | fuel + 1, re, prev, s =>
      match re with
      | .cls p =>
          match s with
          | [] => []
          | c :: rest => if p c then [(some c, rest)] else []
      | .eps => [(prev, s)]
      | .seq a b => (candsF fuel a prev s).flatMap (fun pr => candsF fuel b pr.1 pr.2)
      | .alt a b => candsF fuel a prev s ++ candsF fuel b prev s
      | .wordB => if atWordB prev s then [(prev, s)] else []
      | .many a =>
          ((candsF fuel a prev s).filter (fun pr => pr.2.length < s.length)).flatMap
            (fun pr => candsF fuel (.many a) pr.1 pr.2) ++ [(prev, s)]

/-- All prefix matches of `re` against `s`, best first; the fuel covers any
pattern whose unbounded repetitions consume input (all those in scope). -/
def cands (re : RE) (prev : Option Char) (s : List Char) :
    List (Option Char × List Char) :=
  candsF ((reSize re + 1) * (s.length + 2)) re prev s

/-- Python `re.search` semantics restricted to a boolean: some match starts at some
position (`pattern.findall(text)` is nonempty iff this holds). -/
def searchB (re : RE) : Option Char → List Char → Bool
  | prev, [] => !(cands re prev []).isEmpty
  | prev, c :: t => !(cands re prev (c :: t)).isEmpty || searchB re (some c) t

/-- Whether `pattern.findall(text)` finds anything. -/
def hasMatch (re : RE) (s : String) : Bool := searchB re none s.toList

/-- Python `pattern.sub(f, s)`: scan left to right, at each position replace the
preferred match by `f`, resume after it; positions with no match are copied.
A zero-width match falls through to the copy case (no source pattern can
match empty). -/
def subB (re : RE) (f : List Char → List Char) :
    Nat → Option Char → List Char → List Char
  | 0, _, s => s
  | fuel + 1, prev, s =>
      match cands re prev s with
      | (p1, rem) :: _ =>
          let k := s.length - rem.length
          if k = 0 then
            match s with
            | [] => []
            | c :: t => c :: subB re f fuel (some c) t
          else f (s.take k) ++ subB re f fuel p1 rem
      | [] =>
          match s with
          | [] => []
          | c :: t => c :: subB re f fuel (some c) t

/-- Runner for `pattern.sub(f, s)` with enough fuel for the whole input. -/
def reSub (re : RE) (f : List Char → List Char) (s : List Char) : List Char :=
  subB re f (s.length + 1) none s

/-! ### Pattern constructors -/

/-- A literal character. -/
def reChar (c : Char) : RE := .cls (fun d => d = c)

/-- A literal character, case-insensitively (`re.IGNORECASE`). -/
def reCharI (c : Char) : RE := .cls (fun d => d.toLower = c.toLower)

/-- A literal string. -/
def reStr (s : String) : RE := s.toList.foldr (fun c r => RE.seq (reChar c) r) RE.eps

/-- A literal string, case-insensitively. -/
def reStrI (s : String) : RE := s.toList.foldr (fun c r => RE.seq (reCharI c) r) RE.eps

/-- Operator `a?` (greedy: matching is preferred). -/
def reOpt (a : RE) : RE := .alt a .eps

/-- Operator `a+` = `a a*`. -/
def rePlus (a : RE) : RE := .seq a (.many a)

/-- Alternation of a list, left to right. -/
def altList : List RE → RE
  | [] => RE.eps
  | [a] => a
  | a :: rest => .alt a (altList rest)

/-- Sequence of a list. -/
def seqList : List RE → RE
  | [] => RE.eps
  | [a] => a
  | a :: rest => .seq a (seqList rest)

/-- Exactly `n` copies. -/
def repCount (a : RE) : Nat → RE
  | 0 => RE.eps
  | n + 1 => RE.seq a (repCount a n)

/-- Up to `n` copies, greedy. -/
def optChain (a : RE) : Nat → RE
  | 0 => RE.eps
  | n + 1 => reOpt (RE.seq a (optChain a n))

/-- Bounded repetition `a{lo,hi}`, greedy. -/
def repRange (a : RE) (lo hi : Nat) : RE := .seq (repCount a lo) (optChain a (hi - lo))

/-- Repetition `a{lo,}`, greedy. -/
def repAtLeast (a : RE) (lo : Nat) : RE := .seq (repCount a lo) (.many a)

/-! ### The PII patterns (`PII_PATTERNS` in `moltspeak.py`) -/

/-- Class `\d`. -/
def reDigit : RE := .cls isDigitP

/-- Class `[a-zA-Z]`. -/
def reAlpha : RE := .cls (fun c => ('a' ≤ c && c ≤ 'z') || ('A' ≤ c && c ≤ 'Z'))

/-- Class `\s` (ASCII range). -/
def reSpace : RE := .cls (fun c =>
  c = ' ' || c = '\t' || c = '\n' || c = '\r' || c = '\x0b' || c = '\x0c')

/-- Class `[a-zA-Z0-9._%+-]` — the local part of the email pattern. -/
def emailLocalC : RE := .cls (fun c =>
  ('a' ≤ c && c ≤ 'z') || ('A' ≤ c && c ≤ 'Z') || isDigitP c ||
    c = '.' || c = '_' || c = '%' || c = '+' || c = '-')

/-- Class `[a-zA-Z0-9.-]` — the domain part of the email pattern. -/
def emailDomC : RE := .cls (fun c =>
  ('a' ≤ c && c ≤ 'z') || ('A' ≤ c && c ≤ 'Z') || isDigitP c || c = '.' || c = '-')

/-- Class `[-.\s]` — separators inside the phone pattern. -/
def phoneSepC : RE := .cls (fun c =>
  c = '-' || c = '.' || c = ' ' || c = '\t' || c = '\n' || c = '\r' ||
    c = '\x0b' || c = '\x0c')

/-- Class `[-\s]` / `[\s-]` — separators inside the credit-card patterns. -/
def dashSpaceC : RE := .cls (fun c =>
  c = '-' || c = ' ' || c = '\t' || c = '\n' || c = '\r' || c = '\x0b' || c = '\x0c')

/-- Pattern `[a-zA-Z0-9._%+-]+@[a-zA-Z0-9.-]+\.[a-zA-Z]{2,}` -/
def emailRE : RE :=
  seqList [rePlus emailLocalC, reChar '@', rePlus emailDomC, reChar '.',
    repAtLeast reAlpha 2]

/-- Pattern `(\+?\d{1,3}[-.\s]?)?\(?\d{3}\)?[-.\s]?\d{3}[-.\s]?\d{4}` -/
def phoneRE : RE :=
  seqList [reOpt (seqList [reOpt (reChar '+'), repRange reDigit 1 3, reOpt phoneSepC]),
    reOpt (reChar '('), repCount reDigit 3, reOpt (reChar ')'), reOpt phoneSepC,
    repCount reDigit 3, reOpt phoneSepC, repCount reDigit 4]

/-- Pattern `\b\d{3}[-]?\d{2}[-]?\d{4}\b` -/
def ssnRE : RE :=
  seqList [.wordB, repCount reDigit 3, reOpt (reChar '-'), repCount reDigit 2,
    reOpt (reChar '-'), repCount reDigit 4, .wordB]

/-- Pattern `\b(?:\d{4}[-\s]?){3}\d{4}\b` -/
def creditCardRE : RE :=
  seqList [.wordB, repCount (.seq (repCount reDigit 4) (reOpt dashSpaceC)) 3,
    repCount reDigit 4, .wordB]

/-- Pattern `\b(?:\d{1,3}\.){3}\d{1,3}\b` -/
def ipv4RE : RE :=
  seqList [.wordB, repCount (.seq (repRange reDigit 1 3) (reChar '.')) 3,
    repRange reDigit 1 3, .wordB]

/-- The street-type alternation of the address pattern, in source order. -/
def streetKindRE : RE :=
  altList [reStrI "Street", reStrI "St", reStrI "Avenue", reStrI "Ave",
    reStrI "Boulevard", reStrI "Blvd", reStrI "Road", reStrI "Rd",
    reStrI "Lane", reStrI "Ln", reStrI "Drive", reStrI "Dr",
    reStrI "Court", reStrI "Ct", reStrI "Way", reStrI "Place", reStrI "Pl"]

/-- Pattern `\b\d{1,5}\s+(?:[A-Za-z]+\s+){1,4}(?:Street|…|Pl)\b`, `re.IGNORECASE`. -/
def addressRE : RE :=
  seqList [.wordB, repRange reDigit 1 5, rePlus reSpace,
    repRange (.seq (rePlus reAlpha) (rePlus reSpace)) 1 4, streetKindRE, .wordB]

/-- Pattern `\b(?:0?[1-9]|1[0-2])`, a dash-or-slash separator,
`(?:0?[1-9]|[12]\d|3[01])`, a separator, then `(?:19|20)\d{2}\b` (dob). -/
def dobRE : RE :=
  seqList [.wordB,
    altList [.seq (reOpt (reChar '0')) (.cls (fun c => '1' ≤ c && c ≤ '9')),
      .seq (reChar '1') (.cls (fun c => c = '0' || c = '1' || c = '2'))],
    .cls (fun c => c = '-' || c = '/'),
    altList [.seq (reOpt (reChar '0')) (.cls (fun c => '1' ≤ c && c ≤ '9')),
      .seq (.cls (fun c => c = '1' || c = '2')) reDigit,
      .seq (reChar '3') (.cls (fun c => c = '0' || c = '1'))],
    .cls (fun c => c = '-' || c = '/'),
    .alt (reStr "19") (reStr "20"), repCount reDigit 2, .wordB]

/-- Dict `PII_PATTERNS`, in the source dict's insertion order. -/
def PII_PATTERNS : List (String × RE) :=
  [("email", emailRE), ("phone", phoneRE), ("ssn", ssnRE),
   ("credit_card", creditCardRE), ("ipv4", ipv4RE), ("address", addressRE),
   ("dob", dobRE)]

/-- Class `[0-9a-f]` with `re.IGNORECASE`. -/
def hexC : RE := .cls (fun c => isDigitP c || ('a' ≤ c && c ≤ 'f') || ('A' ≤ c && c ≤ 'F'))

/-- The UUID pattern of `validate_message`:
`^[0-9a-f]{8}-[0-9a-f]{4}-[0-9a-f]{4}-[0-9a-f]{4}-[0-9a-f]{12}$`, `IGNORECASE`. -/
def uuidRE : RE :=
  seqList [repCount hexC 8, reChar '-', repCount hexC 4, reChar '-',
    repCount hexC 4, reChar '-', repCount hexC 4, reChar '-', repCount hexC 12]

/-- Truthiness of `uuid_pattern.match(id)` is truthy: anchored at the start, and `$`
requires the end of the string (or a final newline). -/
def uuidMatch (s : String) : Bool :=
  (cands uuidRE none s.toList).any (fun pr => pr.2.isEmpty || pr.2 = ['\n'])

/-! ## PII detection and masking (`detect_pii`, `mask_pii` in `moltspeak.py`;
`PIIDetector` in `moltspeak/classification.py`) -/

/-- Result of `detect_pii`.  The source also builds a `findings` list (type,
count, preview) that no caller in scope reads; `types` is collected through a
Python `set`, whose iteration order is unspecified — the model keeps the
deterministic `PII_PATTERNS` order instead. -/
structure PIIDetectionResult where
  has_pii : Bool
  types : List String

/-- `detect_pii(data)`: scan the string itself, or `json.dumps(data)` for a
non-string, against every pattern of `PII_PATTERNS`. -/
def detect_pii (data : Json) : PIIDetectionResult :=
  let text := match data with
    | .str s => s
    | _ => pyDumps data
  let found := PII_PATTERNS.filter (fun pr => hasMatch pr.2 text)
  ⟨!found.isEmpty, found.map (fun pr => pr.1)⟩

/-- The per-match replacement of `mask_pii`: a match of length at most 4 is
fully masked, otherwise the first and last characters are kept. -/
def maskValue1 (maskChar : Char) (v : List Char) : List Char :=
  if v.length ≤ 4 then List.replicate v.length maskChar
  else v.take 1 ++ List.replicate (v.length - 2) maskChar ++ v.drop (v.length - 1)

/-- `mask_pii(text, types, mask_char)`.  `types = []` stands for Python's
`None`/empty list, which both fall back to all of `PII_PATTERNS` via
`types or list(PII_PATTERNS.keys())`. -/
def mask_pii (text : String) (types : List String) (maskChar : Char) : String :=
  let typesToMask := if types.isEmpty then PII_PATTERNS.map (fun pr => pr.1) else types
  String.mk (typesToMask.foldl (fun acc name =>
    match List.lookup name PII_PATTERNS with
    | some re => reSub re (maskValue1 maskChar) acc
    | none => acc) text.toList)

/-- Pattern `\+?[1-9]\d{1,14}` (`PIIDetector.PATTERNS["phone"]`). -/
def pdPhoneRE : RE :=
  seqList [reOpt (reChar '+'), .cls (fun c => '1' ≤ c && c ≤ '9'),
    repRange reDigit 1 14]

/-- Pattern `\d{3}-\d{2}-\d{4}` (`PIIDetector.PATTERNS["ssn"]`). -/
def pdSsnRE : RE :=
  seqList [repCount reDigit 3, reChar '-', repCount reDigit 2, reChar '-',
    repCount reDigit 4]

/-- Pattern `\d{4}[\s-]?\d{4}[\s-]?\d{4}[\s-]?\d{4}`
(`PIIDetector.PATTERNS["credit_card"]`). -/
def pdCreditCardRE : RE :=
  seqList [repCount reDigit 4, reOpt dashSpaceC, repCount reDigit 4,
    reOpt dashSpaceC, repCount reDigit 4, reOpt dashSpaceC, repCount reDigit 4]

/-- Pattern `\d{1,3}\.\d{1,3}\.\d{1,3}\.\d{1,3}`
(`PIIDetector.PATTERNS["ip_address"]`). -/
def pdIpRE : RE :=
  seqList [repRange reDigit 1 3, reChar '.', repRange reDigit 1 3, reChar '.',
    repRange reDigit 1 3, reChar '.', repRange reDigit 1 3]

/-- Pattern `\d{1,2}`, a slash-or-dash separator, `\d{1,2}`, a separator,
then `\d{2,4}` (`PIIDetector.PATTERNS["date_of_birth"]`). -/
def pdDobRE : RE :=
  seqList [repRange reDigit 1 2, .cls (fun c => c = '/' || c = '-'),
    repRange reDigit 1 2, .cls (fun c => c = '/' || c = '-'),
    repRange reDigit 2 4]

/-- Dict `PIIDetector.PATTERNS` (equally `_compiled`), in insertion order. -/
def pdPATTERNS : List (String × RE) :=
  [("email", emailRE), ("phone", pdPhoneRE), ("ssn", pdSsnRE),
   ("credit_card", pdCreditCardRE), ("ip_address", pdIpRE),
   ("date_of_birth", pdDobRE)]

/-- The keys of `PIIDetector.detect(text)`: the pattern names with a nonempty
`findall`, in `PATTERNS` order (Python dicts preserve insertion order). -/
def pdDetectTypes (text : String) : List String :=
  (pdPATTERNS.filter (fun pr => hasMatch pr.2 text)).map (fun pr => pr.1)

/-- `PIIDetector.contains_pii(text)`. -/
def pdContainsPii (text : String) : Bool := !(pdDetectTypes text).isEmpty

/-- The per-match replacement of `PIIDetector.mask`: a match of length at
most 4 is fully masked, otherwise the first two and last two characters are
kept (`value[:2] + mask_char * (len(value) - 4) + value[-2:]`). -/
def pdMaskValue (maskChar : Char) (v : List Char) : List Char :=
  if v.length ≤ 4 then List.replicate v.length maskChar
  else v.take 2 ++ List.replicate (v.length - 4) maskChar ++ v.drop (v.length - 2)

/-- `PIIDetector.mask(text, mask_char)`: substitute every pattern in turn. -/
def pdMask (text : String) (maskChar : Char) : String :=
  String.mk (pdPATTERNS.foldl (fun acc pr =>
    reSub pr.2 (pdMaskValue maskChar) acc) text.toList)

/-! ## `validate_message` (`moltspeak.py`, lines 223-345)

Time is passed explicitly: `nowMs` stands for the source's `now()` (both
calls inside one validation run are modeled as the same instant).  Errors
and warnings are inductive, one constructor per `append` site; the source
sets `result.valid = False` exactly when it appends an error, so `valid`
equals the error list being empty. -/

def PROTOCOL_VERSION : String := "0.1"

/-- Values of the `Operations` enum, in order. -/
def VALID_OPS : List String :=
  ["hello", "verify", "query", "respond", "task", "stream", "tool", "consent",
   "error"]

/-- Values of the `Classifications` enum, in order. -/
def VALID_CLS : List String := ["pub", "int", "conf", "pii", "sec"]

/-- `SizeLimits.SINGLE_MESSAGE`. -/
def SINGLE_MESSAGE : Nat := 1 * 1024 * 1024

/-- `MAX_AGE_MS` in the timestamp check. -/
def MAX_AGE_MS : Int := 5 * 60 * 1000

/-- One constructor per error `append` in `validate_message`; the payloads
carry what the source interpolates into the message string. -/
inductive VErr where
  | notDict
  | missingField (name : String)
  | invalidCls (v : Json)
  | tsNotNumber
  | tsNegative
  | tsTooOld (ageMs : Int)
  | sizeExceeded (size : Nat)
  | piiDetected (types : List String)
  | expNotNumber
deriving DecidableEq

/-- One constructor per warning `append` in `validate_message`. -/
inductive VWarn where
  | versionMismatch (v : Json)
  | unknownOp (v : Json)
  | badIdFormat
  | fromAgentMissing
  | toAgentMissing
  | expired
deriving DecidableEq

/-- The `ValidationResult` dataclass. -/
structure ValidationResult where
  valid : Bool
  errors : List VErr
  warnings : List VWarn
deriving DecidableEq

/-- Python `isinstance(x, (int, float))` on the value domain: numbers, and
booleans (`bool` subclasses `int`; `True` counts as `1`).  Floats are outside
the integer-valued model. -/
def numVal : Json → Option Int
  | .num n => some n
  | .bool b => some (if b then 1 else 0)
  | _ => none

/-- The required-fields pass: `["v","id","ts","op"]` plus `["from","cls"]`
when strict; a field is missing when absent or `None`. -/
def missingErrs (m : Json) (strict : Bool) : List VErr :=
  (if strict then ["v", "id", "ts", "op", "from", "cls"]
   else ["v", "id", "ts", "op"]).filterMap (fun f =>
    if !(m.hasKey f) || m.getN f == Json.null then some (.missingField f) else none)

/-- Version check (warning only). -/
def versionWarns (m : Json) : List VWarn :=
  if m.hasKey "v" && !(m.getN "v" == Json.str PROTOCOL_VERSION) then
    [.versionMismatch (m.getN "v")]
  else []

/-- Operation check (warning only). -/
def opWarns (m : Json) : List VWarn :=
  if m.hasKey "op" && !(VALID_OPS.any (fun o => m.getN "op" == Json.str o)) then
    [.unknownOp (m.getN "op")]
  else []

/-- Classification check (error). -/
def clsErrs (m : Json) : List VErr :=
  if m.hasKey "cls" && !(VALID_CLS.any (fun c => m.getN "cls" == Json.str c)) then
    [.invalidCls (m.getN "cls")]
  else []

/-- Timestamp pass: type, sign, then the replay window, in that order —
the age check only runs when type and sign passed. -/
def tsErrs (nowMs : Int) (m : Json) : List VErr :=
  if m.hasKey "ts" then
    match numVal (m.getN "ts") with
    | none => [.tsNotNumber]
    | some t =>
        if t < 0 then [.tsNegative]
        else if nowMs - t > MAX_AGE_MS then [.tsTooOld (nowMs - t)] else []
  else []

/-- ID format check (warning; only for string ids). -/
def idWarns (m : Json) : List VWarn :=
  if m.hasKey "id" then
    match m.getN "id" with
    | .str s => if !uuidMatch s then [.badIdFormat] else []
    | _ => []
  else []

/-- Sender structure check (warning; only for dict senders). -/
def fromWarns (m : Json) : List VWarn :=
  if m.hasKey "from" then
    match m.getN "from" with
    | .obj kvs => if (Json.lookupKv kvs "agent").isSome then [] else [.fromAgentMissing]
    | _ => []
  else []

/-- Recipient structure check (warning; only for dict recipients). -/
def toWarns (m : Json) : List VWarn :=
  if m.hasKey "to" then
    match m.getN "to" with
    | .obj kvs => if (Json.lookupKv kvs "agent").isSome then [] else [.toAgentMissing]
    | _ => []
  else []

/-- Size check over `byte_size(json.dumps(message))`. -/
def sizeErrs (m : Json) : List VErr :=
  let size := byte_size (pyDumps m)
  if size > SINGLE_MESSAGE then [.sizeExceeded size] else []

/-- PII pass: only with `check_pii`, and only when `message.get("cls")` is
not `"pii"`; scans `message.get("p", {})`. -/
def piiErrs (checkPii : Bool) (m : Json) : List VErr :=
  if checkPii && !(m.getN "cls" == Json.str "pii") then
    let r := detect_pii (m.getD "p" (Json.obj []))
    if r.has_pii then [.piiDetected r.types] else []
  else []

/-- Expiry pass: a type error, or a warning for an expired message. -/
def expChecks (nowMs : Int) (m : Json) : List VErr × List VWarn :=
  if m.hasKey "exp" then
    match numVal (m.getN "exp") with
    | none => ([.expNotNumber], [])
    | some e => if e < nowMs then ([], [.expired]) else ([], [])
  else ([], [])

/-- `validate_message(message, strict, check_pii)` at instant `nowMs`.
Errors and warnings appear in the source's append order; `valid` is true
iff no error was appended. -/
def validate_message (nowMs : Int) (m : Json) (strict checkPii : Bool) :
    ValidationResult :=
  match m with
  | .obj _ =>
      let errs := missingErrs m strict ++ clsErrs m ++ tsErrs nowMs m
        ++ sizeErrs m ++ piiErrs checkPii m ++ (expChecks nowMs m).1
      let warns := versionWarns m ++ opWarns m ++ idWarns m ++ fromWarns m
        ++ toWarns m ++ (expChecks nowMs m).2
      ⟨errs.isEmpty, errs, warns⟩
  | _ => ⟨false, [.notDict], []⟩
/-! ## Envelopes and encode/decode (`moltspeak.py`, lines 675-791)

Raised exceptions are modeled as `Except PyErr`, one constructor per `raise`
site or exception class reachable from the functions in scope. -/

/-- One constructor per error `append` in `validate_envelope`. -/
inductive EErr where
  | notDict
  | missingVersion
  | missingEnvelopeOrCiphertext
  | encryptedMissingCiphertext
  | encryptedMissingAlgorithm
  | unencryptedMissingMessage
deriving DecidableEq

/-- The `ValidationResult` as `validate_envelope` fills it (no warnings). -/
structure EnvValidationResult where
  valid : Bool
  errors : List EErr
deriving DecidableEq

deriving instance DecidableEq for Except

/-- Exceptions reachable from the embedded functions. -/
inductive PyErr where
  | invalidEnvelope (errs : List EErr)
  | encryptedEnvelope
  | keyError (key : String)
  | attributeError
  | invalidJson
  | invalidMessage (errs : List VErr)
  | missingPrivateKey
  | missingPublicKey
  | binasciiError
deriving DecidableEq

/-- `validate_envelope(envelope)`.  A non-dict value under the `"envelope"`
key makes `env_meta.get("encrypted")` raise `AttributeError` (so does `None`,
when the key is present with that value). -/
def validate_envelope (envelope : Json) : Except PyErr EnvValidationResult :=
  match envelope with
  | .obj _ =>
      let e1 := if !(envelope.hasKey "moltspeak") then [EErr.missingVersion] else []
      let e2 := if !(envelope.hasKey "envelope") && !(envelope.hasKey "ciphertext")
        then [EErr.missingEnvelopeOrCiphertext] else []
      let envMeta := envelope.getD "envelope" (.obj [])
      match envMeta with
      | .obj _ =>
          let encrypted := Json.truthy (envMeta.getN "encrypted")
          let e3 := if encrypted then
              (if !(envelope.hasKey "ciphertext") then [EErr.encryptedMissingCiphertext]
               else [])
              ++ (if !(envMeta.hasKey "algorithm") then [EErr.encryptedMissingAlgorithm]
                  else [])
            else []
          let e4 := if Json.truthy envMeta && !encrypted && !(envelope.hasKey "message")
            then [EErr.unencryptedMissingMessage] else []
          let errs := e1 ++ e2 ++ e3 ++ e4
          .ok ⟨errs.isEmpty, errs⟩
      | _ => .error .attributeError
  | _ => .ok ⟨false, [EErr.notDict]⟩

/-- `wrap_in_envelope(message, compressed)`. -/
def wrap_in_envelope (message : Json) (compressed : Bool) : Json :=
  .obj [("moltspeak", .str PROTOCOL_VERSION),
        ("envelope", .obj [("encrypted", .bool false),
                           ("compressed", .bool compressed),
                           ("encoding", .str "utf-8")]),
        ("message", message)]

/-- `unwrap_envelope(envelope)`: validate the shape, refuse encrypted
envelopes, then index `envelope["message"]` (a `KeyError` when absent). -/
def unwrap_envelope (envelope : Json) : Except PyErr Json := do
  let v ← validate_envelope envelope
  if !v.valid then throw (.invalidEnvelope v.errors)
  else
    let envMeta := envelope.getD "envelope" (.obj [])
    match envMeta with
    | .obj _ =>
        if Json.truthy (envMeta.getN "encrypted") then throw .encryptedEnvelope
        else match envelope with
          | .obj kvs =>
              match Json.lookupKv kvs "message" with
              | some msg => return msg
              | none => throw (.keyError "message")
          | _ => throw (.keyError "message")
    | _ => throw .attributeError

/-- `encode(message, pretty, envelope)`. -/
def encode (message : Json) (pretty envelope : Bool) : String :=
  let data := if envelope then wrap_in_envelope message false else message
  if pretty then pyDumpsIndent2 data else pyDumps data

/-- The tail of `decode`: optional validation (non-strict, PII checking
off), then the message. -/
def decodeFinish (nowMs : Int) (validate : Bool) (message : Json) :
    Except PyErr Json :=
  if validate then
    let r := validate_message nowMs message false false
    if !r.valid then .error (.invalidMessage r.errors) else .ok message
  else .ok message

/-- `decode(json_str, validate, should_unwrap)` at instant `nowMs`.  A value
carrying both a `"moltspeak"` and an `"envelope"` key is treated as an
envelope; without `should_unwrap` it is returned as-is (skipping validation). -/
def decode (nowMs : Int) (jsonStr : String) (validate shouldUnwrap : Bool) :
    Except PyErr Json :=
  match pyLoads jsonStr with
  | none => .error .invalidJson
  | some data =>
      if data.hasKey "moltspeak" && data.hasKey "envelope" then
        if shouldUnwrap then
          match unwrap_envelope data with
          | .ok message => decodeFinish nowMs validate message
          | .error e => .error e
        else .ok data
      else decodeFinish nowMs validate data
/-! ## Base64 and SHA-256 (`base64`, `hashlib`, as the signing stubs use them)

The repository ships with zero dependencies, so `NACL_AVAILABLE` is false in
`moltspeak/crypto.py` and the demo-stub branches run; those are embedded. -/

/-- The base64 alphabet. -/
def B64CHARS : List Char :=
  "ABCDEFGHIJKLMNOPQRSTUVWXYZabcdefghijklmnopqrstuvwxyz0123456789+/".toList

/-- Encode a byte list, 3 bytes to 4 characters, padding with `=`. -/
def b64encodeBytes : List Nat → List Char
  | [] => []
  | [a] => [B64CHARS.getD (a / 4) ' ', B64CHARS.getD (a % 4 * 16) ' ', '=', '=']
  | [a, b] => [B64CHARS.getD (a / 4) ' ', B64CHARS.getD (a % 4 * 16 + b / 16) ' ',
      B64CHARS.getD (b % 16 * 4) ' ', '=']
  | a :: b :: c :: rest =>
      B64CHARS.getD (a / 4) ' ' :: B64CHARS.getD (a % 4 * 16 + b / 16) ' '
        :: B64CHARS.getD (b % 16 * 4 + c / 64) ' ' :: B64CHARS.getD (c % 64) ' '
        :: b64encodeBytes rest

/-- `base64.b64encode(bytes).decode()`. -/
def b64encode (bytes : List Nat) : String := String.mk (b64encodeBytes bytes)

/-- Value of one base64 alphabet character. -/
def b64dval (c : Char) : Option Nat := B64CHARS.findIdx? (fun d => d == c)

/-- Decode a filtered base64 character list in groups of four; `=` only as
final padding; a leftover group is `binascii.Error` (incorrect padding). -/
def b64decodeCore : List Char → Except PyErr (List Nat)
  | [] => .ok []
  | a :: b :: c :: d :: rest =>
      match b64dval a, b64dval b with
      | some va, some vb =>
          if c = '=' then .ok [va * 4 + vb / 16]
          else match b64dval c with
            | some vc =>
                if d = '=' then .ok [va * 4 + vb / 16, vb % 16 * 16 + vc / 4]
                else match b64dval d with
                  | some vd =>
                      match b64decodeCore rest with
                      | .ok tail => .ok ([va * 4 + vb / 16, vb % 16 * 16 + vc / 4,
                          vc % 4 * 64 + vd] ++ tail)
                      | .error e => .error e
                  | none => .error .binasciiError
            | none => .error .binasciiError
      | _, _ => .error .binasciiError
  | _ => .error .binasciiError

/-- `base64.b64decode(s)` (default lenient mode: characters outside the
alphabet and padding are discarded before decoding). -/
def b64decodeStr (s : String) : Except PyErr (List Nat) :=
  b64decodeCore (s.toList.filter (fun c => (b64dval c).isSome || c = '='))

/-- Two to the `n` (bits), as the 32-bit arithmetic below uses it. -/
def pow2 (n : Nat) : Nat := 2 ^ n

/-- Truncate to 32 bits. -/
def w32 (x : Nat) : Nat := x % pow2 32

/-- Rotate a 32-bit word right by `n`. -/
def rotr (x n : Nat) : Nat := w32 (x / pow2 n + x % pow2 n * pow2 (32 - n))

/-- The first sixty-four primes, sources of the SHA-256 round constants. -/
def sha256Primes : List Nat :=
  [2, 3, 5, 7, 11, 13, 17, 19, 23, 29, 31, 37, 41, 43, 47, 53, 59, 61, 67,
   71, 73, 79, 83, 89, 97, 101, 103, 107, 109, 113, 127, 131, 137, 139, 149,
   151, 157, 163, 167, 173, 179, 181, 191, 193, 197, 199, 211, 223, 227, 229,
   233, 239, 241, 251, 257, 263, 269, 271, 277, 281, 283, 293, 307, 311]

/-- Integer cube root by 200 steps of binary search (enough for the operand
sizes below). -/
def icbrtGo (n : Nat) : Nat → Nat → Nat → Nat
  | 0, lo, _ => lo
  | fuel + 1, lo, hi =>
      let mid := (lo + hi) / 2
      if mid = lo then lo
      else if mid * mid * mid ≤ n then icbrtGo n fuel mid hi
      else icbrtGo n fuel lo mid

/-- Integer cube root. -/
def icbrt (n : Nat) : Nat := icbrtGo n 200 0 (n + 1)

/-- Initial hash state: the first 32 fractional bits of the square roots of
the first eight primes. -/
def sha256H0 : List Nat :=
  (sha256Primes.take 8).map (fun p => Nat.sqrt (p * pow2 64) - Nat.sqrt p * pow2 32)

/-- Round constants: the first 32 fractional bits of the cube roots of the
first sixty-four primes. -/
def sha256K : List Nat :=
  sha256Primes.map (fun p => icbrt (p * pow2 96) - icbrt p * pow2 32)

/-- SHA-256 padding: `0x80`, zeros to 56 mod 64, the bit length big-endian. -/
def sha256Pad (msg : List Nat) : List Nat :=
  let len := msg.length
  let padLen := (55 + 64 - len % 64) % 64 + 1
  let bitLen := len * 8
  msg ++ 0x80 :: List.replicate (padLen - 1) 0
    ++ [bitLen / pow2 56 % 256, bitLen / pow2 48 % 256, bitLen / pow2 40 % 256,
        bitLen / pow2 32 % 256, bitLen / pow2 24 % 256, bitLen / pow2 16 % 256,
        bitLen / pow2 8 % 256, bitLen % 256]

/-- Big-endian 32-bit words from bytes. -/
def bytesToWords : List Nat → List Nat
  | a :: b :: c :: d :: rest => (a * pow2 24 + b * pow2 16 + c * pow2 8 + d) :: bytesToWords rest
  | _ => []

/-- Message-schedule extension from 16 to 64 words. -/
def sha256Extend (ws : List Nat) : Nat → List Nat
  | 0 => ws
  | n + 1 =>
      let ws := sha256Extend ws n
      let i := ws.length
      let w15 := ws.getD (i - 15) 0
      let w2 := ws.getD (i - 2) 0
      let s0 := Nat.xor (Nat.xor (rotr w15 7) (rotr w15 18)) (w15 / pow2 3)
      let s1 := Nat.xor (Nat.xor (rotr w2 17) (rotr w2 19)) (w2 / pow2 10)
      ws ++ [w32 (ws.getD (i - 16) 0 + s0 + ws.getD (i - 7) 0 + s1)]

/-- One round of the compression function over `(a,b,c,d,e,f,g,h)`. -/
def sha256Round (st : List Nat) (k w : Nat) : List Nat :=
  match st with
  | [a, b, c, d, e, f, g, h] =>
      let s1 := Nat.xor (Nat.xor (rotr e 6) (rotr e 11)) (rotr e 25)
      let ch := Nat.xor (Nat.land e f) (Nat.land (pow2 32 - 1 - e) g)
      let t1 := w32 (h + s1 + ch + k + w)
      let s0 := Nat.xor (Nat.xor (rotr a 2) (rotr a 13)) (rotr a 22)
      let mj := Nat.xor (Nat.xor (Nat.land a b) (Nat.land a c)) (Nat.land b c)
      let t2 := w32 (s0 + mj)
      [w32 (t1 + t2), a, b, c, w32 (d + t1), e, f, g]
  | st => st

/-- Compress one 64-byte chunk into the running state. -/
def sha256Chunk (h : List Nat) (chunk : List Nat) : List Nat :=
  let ws := sha256Extend (bytesToWords chunk) 48
  let st := (List.zip sha256K ws).foldl (fun st kw => sha256Round st kw.1 kw.2) h
  (List.zip h st).map (fun ab => w32 (ab.1 + ab.2))

/-- Fold all 64-byte chunks. -/
def sha256Chunks (h : List Nat) (bytes : List Nat) : List Nat :=
  if bytes.length < 64 then h
  else sha256Chunks (sha256Chunk h (bytes.take 64)) (bytes.drop 64)
termination_by bytes.length
decreasing_by
  simp only [List.length_drop]
  omega

/-- `hashlib.sha256(bytes).digest()` as a 32-byte list. -/
def sha256Bytes (msg : List Nat) : List Nat :=
  (sha256Chunks sha256H0 (sha256Pad msg)).flatMap (fun word =>
    [word / pow2 24 % 256, word / pow2 16 % 256, word / pow2 8 % 256, word % 256])
/-! ## Module-level `sign` / `verify` (`moltspeak.py`, lines 798-850)

Both are pure over the dict domain; `sign` deep-clones its input and only
the clone gets the signature, so it is modeled as returning the pair
(signed copy, caller's dict after the call) — the second component equal to
the input captures the absence of mutation. -/

/-- `sign(message, private_key)`.  Returns the pair — see above; an
empty key raises, a non-dict has no `.keys()`. -/
def msign (message : Json) (privateKey : String) :
    Except PyErr (Json × Json) :=
  if privateKey = "" then .error .missingPrivateKey
  else match message with
    | .obj kvs =>
        let sortedKeys :=
          ((kvs.map (fun kv => kv.1)).filter (fun k => k ≠ "sig")).mergeSort
            (fun a b => a ≤ b)
        let payload := String.intercalate "|"
          (sortedKeys.map (fun k => pyDumps (message.getN k)))
        let mockSig := String.mk ((b64encode (utf8Bytes payload)).toList.take 64)
        .ok (.obj (Json.setKey kvs "sig" (.str ("ed25519:" ++ mockSig))), message)
    | _ => .error .attributeError

/-- `verify(message, public_key)`: a missing `sig` is `False` before the key
is even looked at; an empty key then raises; otherwise the placeholder
checks the tag format (`startswith("ed25519:") and len > 16`). -/
def mverify (message : Json) (publicKey : String) : Except PyErr Bool :=
  if !(message.hasKey "sig") then .ok false
  else if publicKey = "" then .error .missingPublicKey
  else match message.getN "sig" with
    | .str s => .ok (s.startsWith "ed25519:" && s.length > 16)
    | _ => .error .attributeError

/-! ## `moltspeak/crypto.py` signing stubs (the `NACL_AVAILABLE = False` path) -/

/-- `sign_message(message, private_key_b64)`:
`b64encode(sha256(message.encode() + b64decode(private_key)).digest())`. -/
def sign_message (message : String) (privateKeyB64 : String) :
    Except PyErr String :=
  match b64decodeStr privateKeyB64 with
  | .ok keyBytes => .ok (b64encode (sha256Bytes (utf8Bytes message ++ keyBytes)))
  | .error e => .error e

/-- `verify_signature(message, signature_b64, public_key_b64)`: recompute the
stub signature with the public key in the private key's place
(`_public_to_fake_private` is the identity) and compare. -/
def verify_signature (message sigB64 pubB64 : String) : Except PyErr Bool :=
  match sign_message message pubB64 with
  | .ok expected => .ok (sigB64 == expected)
  | .error e => .error e

/-! ## `moltspeak/message.py`: `AgentRef` and `Message` -/

/-- The `AgentRef` dataclass. -/
structure AgentRef where
  agent : String
  org : String
  key : Option String
  enc_key : Option String
deriving DecidableEq

/-- Truthiness of an optional string (`None` and `""` falsy). -/
def optStrTruthy : Option String → Bool
  | some s => s ≠ ""
  | none => false

/-- Truthiness of an optional integer (`None` and `0` falsy). -/
def optIntTruthy : Option Int → Bool
  | some n => n ≠ 0
  | none => false

/-- Truthiness of an optional list (`None` and `[]` falsy). -/
def optListTruthy : Option (List String) → Bool
  | some l => !l.isEmpty
  | none => false

/-- Truthiness of an optional JSON-shaped value. -/
def optJsonTruthy : Option Json → Bool
  | some j => Json.truthy j
  | none => false

/-- `AgentRef.to_dict`: `agent` and `org` always, `key`/`enc_key` when
truthy. -/
def AgentRef.to_dict (r : AgentRef) : Json :=
  .obj ([("agent", Json.str r.agent), ("org", Json.str r.org)]
    ++ (match r.key with
        | some k => if k = "" then [] else [("key", Json.str k)]
        | none => [])
    ++ (match r.enc_key with
        | some k => if k = "" then [] else [("enc_key", Json.str k)]
        | none => []))

/-- The `Message` dataclass (`__post_init__` fills `message_id`/`timestamp`
from fresh randomness and the clock; the model takes them as given). -/
structure Message where
  operation : String
  sender : AgentRef
  recipient : AgentRef
  payload : Json
  classification : String
  version : String
  message_id : String
  timestamp : Int
  signature : Option String
  reply_to : Option String
  expires : Option Int
  capabilities_required : Option (List String)
  pii_meta : Option Json
  extensions : Option Json
deriving DecidableEq

/-- `Message.to_dict`: the eight fixed fields in order, then each optional
field when truthy. -/
def Message.to_dict (msg : Message) : Json :=
  .obj ([("v", Json.str msg.version), ("id", Json.str msg.message_id),
    ("ts", Json.num msg.timestamp), ("op", Json.str msg.operation),
    ("from", msg.sender.to_dict), ("to", msg.recipient.to_dict),
    ("p", msg.payload), ("cls", Json.str msg.classification)]
    ++ (if optStrTruthy msg.signature
        then [("sig", Json.str (msg.signature.getD ""))] else [])
    ++ (if optStrTruthy msg.reply_to
        then [("re", Json.str (msg.reply_to.getD ""))] else [])
    ++ (if optIntTruthy msg.expires
        then [("exp", Json.num (msg.expires.getD 0))] else [])
    ++ (if optListTruthy msg.capabilities_required
        then [("cap", Json.arr ((msg.capabilities_required.getD []).map Json.str))]
        else [])
    ++ (if optJsonTruthy msg.pii_meta
        then [("pii_meta", msg.pii_meta.getD Json.null)] else [])
    ++ (if optJsonTruthy msg.extensions
        then [("ext", msg.extensions.getD Json.null)] else []))
/-! ## `moltspeak/classification.py`: `ClassificationValidator`

`validate_message` there starts from `str(message.payload)`; Python `str`
of a string is the string itself, of anything else its `repr`.  The `repr`
below covers the ASCII value domain in scope. -/

/-- Python `repr` of a string: quote choice (single quotes unless the string
contains one and no double quote), backslash and quote escaping, `\xHH` for
other control characters. -/
def pyReprStrChars (s : String) : List Char :=
  let q := if s.toList.contains squote && !(s.toList.contains '"') then '"' else squote
  q :: (s.toList.flatMap (fun c =>
    if c = '\\' then ['\\', '\\']
    else if c = q then ['\\', q]
    else if c = '\n' then ['\\', 'n']
    else if c = '\r' then ['\\', 'r']
    else if c = '\t' then ['\\', 't']
    else if c.toNat < 32 || c.toNat = 127 then
      '\\' :: 'x' :: [hexDigit (c.toNat / 16), hexDigit (c.toNat % 16)]
    else [c])) ++ [q]

/-- Python `repr` of a JSON-shaped value (`None`/`True`/`False`, decimal
integers, quoted strings, bracketed lists, braced dicts with `": "` and
`", "`), structurally on a fuel bounded by the term size. -/
def pyReprF : Nat → Json → List Char
  | 0, _ => []
  | fuel + 1, j =>
      match j with
      | .null => ['N', 'o', 'n', 'e']
      | .bool true => ['T', 'r', 'u', 'e']
      | .bool false => ['F', 'a', 'l', 's', 'e']
      | .num n => intCharsS n
      | .str s => pyReprStrChars s
      | .arr xs =>
          '[' :: (joinPieces [',', ' '] (xs.map (fun x => pyReprF fuel x)) ++ [']'])
      | .obj kvs =>
          lbrace :: (joinPieces [',', ' ']
            (kvs.map (fun kv =>
              pyReprStrChars kv.1 ++ ':' :: ' ' :: pyReprF fuel kv.2)) ++ [rbrace])

/-- Python `str(x)` on the value domain. -/
def pyStr (j : Json) : String :=
  match j with
  | .str s => s
  | _ => String.mk (pyReprF (Json.jsize j) j)

/-- One constructor per violation `append` in
`ClassificationValidator.validate_message`. -/
inductive CVErr where
  | piiMismatch (cls : String) (types : List String)
  | consentMetaMissing
  | consentProofMissing
  | crossOrgSecret
deriving DecidableEq

/-- The consent check for a `pii`-classified message: missing/falsy
`pii_meta`, else a falsy `pii_meta.get("consent", {}).get("proof")`; a
truthy non-dict in either position has no `.get` (`AttributeError`). -/
def consentSegment (pm : Json) : Except PyErr (List CVErr) :=
  if !(Json.truthy pm) then .ok [CVErr.consentMetaMissing]
  else match pm with
    | .obj _ =>
        match pm.getD "consent" (.obj []) with
        | .obj ckvs =>
            if Json.truthy ((Json.obj ckvs).getN "proof") then .ok []
            else .ok [CVErr.consentProofMissing]
        | _ => .error .attributeError
    | _ => .error .attributeError

/-- `ClassificationValidator.validate_message(message)`: the PII-presence
check for non-`pii` classifications, the consent check for `pii`, and the
cross-organization check for `sec`, in source order. -/
def cvValidate (msg : Message) : Except PyErr (List CVErr) := do
  let payloadStr := pyStr msg.payload
  let e1 := if msg.classification ≠ "pii" then
      (let found := pdDetectTypes payloadStr
       if !found.isEmpty then [CVErr.piiMismatch msg.classification found] else [])
    else []
  let e2 ← if msg.classification = "pii" then
      consentSegment (msg.pii_meta.getD Json.null)
    else pure []
  let e3 := if msg.classification = "sec" && msg.sender.org ≠ msg.recipient.org then
      [CVErr.crossOrgSecret]
    else []
  return e1 ++ e2 ++ e3

/-- `ClassificationValidator.can_log`. -/
def can_log (classification : String) : Bool := !(classification == "sec")

/-- `ClassificationValidator.must_encrypt`. -/
def must_encrypt (classification : String) : Bool :=
  ["conf", "pii", "sec"].contains classification

/-! ## `moltspeak/agent.py`: `Agent.sign` and `Agent.verify`

`Agent.sign` assigns `message.signature` on its argument and returns the
same instance — modeled, like module `sign`, as a pair (returned message,
caller's message after the call); here the two are the same mutated value. -/

/-- The signing fields of `AgentIdentity` (key generation, file I/O and the
rest of the class are outside the functions in scope). -/
structure AgentIdentityL where
  agent_id : String
  org : String
  signing_key : String
  public_key : String
deriving DecidableEq

/-- The canonical JSON both `Agent.sign` and `Agent.verify` build:
`json.dumps(msg_dict - sig, sort_keys=True, separators=(",", ":"))`. -/
def canonicalOf (msg : Message) : String :=
  pyDumpsCanonical (.obj (match msg.to_dict with
    | .obj kvs => Json.delKey kvs "sig"
    | _ => []))

/-- `Agent.sign(message)`: sign the canonical form, then mutate the caller's
message (`message.signature = f"ed25519:{signature}"; return message`). -/
def agentSign (ident : AgentIdentityL) (message : Message) :
    Except PyErr (Message × Message) :=
  match sign_message (canonicalOf message) ident.signing_key with
  | .ok signature =>
      let mutated := { message with signature := some ("ed25519:" ++ signature) }
      .ok (mutated, mutated)
  | .error e => .error e

/-- `Agent.verify(message, sender_public_key)`: falsy signature means
`False`; otherwise strip the `ed25519:` prefixes and call
`verify_signature` (which, on the stub path, never raises for keys the
base64 decoder accepts). -/
def agentVerify (message : Message) (senderPublicKey : String) :
    Except PyErr Bool :=
  if !(optStrTruthy message.signature) then .ok false
  else
    let sigStr := message.signature.getD ""
    let sig := if sigStr.startsWith "ed25519:" then sigStr.drop 8 else sigStr
    let pubKey := if senderPublicKey.startsWith "ed25519:" then
        senderPublicKey.drop 8
      else senderPublicKey
    verify_signature (canonicalOf message) sig pubKey
/-! ## Validation-segment lemmas -/

theorem mem_ifSingleton {α : Type} {c : Prop} [Decidable c] {x e : α}
    (h : e ∈ (if c then [x] else [])) : e = x := by
  split at h
  · exact List.mem_singleton.mp h
  · cases h

theorem mem_missingErrs {e : VErr} {m : Json} {strict : Bool}
    (h : e ∈ missingErrs m strict) : ∃ f, e = .missingField f := by
  simp only [missingErrs, List.mem_filterMap] at h
  obtain ⟨a, -, ha⟩ := h
  split at ha
  · exact ⟨a, (Option.some.inj ha).symm⟩
  · cases ha

theorem mem_clsErrs {e : VErr} {m : Json} (h : e ∈ clsErrs m) :
    ∃ v, e = .invalidCls v := by
  unfold clsErrs at h
  exact ⟨_, mem_ifSingleton h⟩

theorem mem_sizeErrs {e : VErr} {m : Json} (h : e ∈ sizeErrs m) :
    ∃ n, e = .sizeExceeded n := by
  unfold sizeErrs at h
  exact ⟨_, mem_ifSingleton h⟩

theorem mem_piiErrs {e : VErr} {cp : Bool} {m : Json} (h : e ∈ piiErrs cp m) :
    ∃ ts, e = .piiDetected ts := by
  simp only [piiErrs] at h
  split at h
  · split at h
    · exact ⟨_, List.mem_singleton.mp h⟩
    · cases h
  · cases h

theorem mem_expErrs {e : VErr} {nowMs : Int} {m : Json}
    (h : e ∈ (expChecks nowMs m).1) : e = .expNotNumber := by
  unfold expChecks at h
  split at h
  · split at h
    · exact List.mem_singleton.mp h
    · split at h <;> cases h
  · cases h

theorem mem_tsErrs {e : VErr} {nowMs : Int} {m : Json} (h : e ∈ tsErrs nowMs m) :
    e = .tsNotNumber ∨ e = .tsNegative ∨ ∃ a, e = .tsTooOld a := by
  unfold tsErrs at h
  split at h
  · split at h
    · exact Or.inl (List.mem_singleton.mp h)
    · split at h
      · exact Or.inr (Or.inl (List.mem_singleton.mp h))
      · split at h
        · exact Or.inr (Or.inr ⟨_, List.mem_singleton.mp h⟩)
        · cases h
  · cases h

/-- The error list of `validate_message` on a dict, by segment. -/
theorem validate_message_obj_errors (nowMs : Int) (kvs : List (String × Json))
    (strict checkPii : Bool) :
    (validate_message nowMs (.obj kvs) strict checkPii).errors =
      missingErrs (.obj kvs) strict ++ clsErrs (.obj kvs) ++ tsErrs nowMs (.obj kvs)
        ++ sizeErrs (.obj kvs) ++ piiErrs checkPii (.obj kvs)
        ++ (expChecks nowMs (.obj kvs)).1 := rfl

/-- `valid` is the emptiness of the error list. -/
theorem validate_message_obj_valid (nowMs : Int) (kvs : List (String × Json))
    (strict checkPii : Bool) :
    (validate_message nowMs (.obj kvs) strict checkPii).valid =
      (validate_message nowMs (.obj kvs) strict checkPii).errors.isEmpty := rfl

theorem valid_false_of_mem {nowMs : Int} {kvs : List (String × Json)}
    {strict checkPii : Bool} {e : VErr}
    (h : e ∈ (validate_message nowMs (.obj kvs) strict checkPii).errors) :
    (validate_message nowMs (.obj kvs) strict checkPii).valid = false := by
  have h2 := List.ne_nil_of_mem h
  rw [validate_message_obj_valid]
  cases he : (validate_message nowMs (Json.obj kvs) strict checkPii).errors with
  | nil => exact absurd he h2
  | cons a l => rfl

/-- The PII segment fires on a non-`pii` classification with a detected
pattern. -/
theorem piiErrs_fires {kvs : List (String × Json)}
    (hcls : ¬((Json.obj kvs).getN "cls" = Json.str "pii"))
    (hpii : (detect_pii ((Json.obj kvs).getD "p" (Json.obj []))).has_pii = true) :
    piiErrs true (.obj kvs) =
      [.piiDetected (detect_pii ((Json.obj kvs).getD "p" (Json.obj []))).types] := by
  unfold piiErrs
  rw [if_pos, if_pos hpii]
  simp only [Bool.true_and, Bool.not_eq_eq_eq_not, Bool.not_true, beq_eq_false_iff_ne]
  exact hcls
/-! ## Claim C2 — PII default-reject in `validate_message` -/

/-- C2: with `check_pii` enabled and a classification other than `"pii"`, a
payload in which the detector finds anything makes `validate_message` append
the PII error (naming the detected types) and report the message invalid —
never a mere warning. -/
theorem C2_pii_default_reject (nowMs : Int) (kvs : List (String × Json))
    (strict : Bool)
    (hcls : ¬((Json.obj kvs).getN "cls" = Json.str "pii"))
    (hpii : (detect_pii ((Json.obj kvs).getD "p" (Json.obj []))).has_pii = true) :
    VErr.piiDetected (detect_pii ((Json.obj kvs).getD "p" (Json.obj []))).types
      ∈ (validate_message nowMs (.obj kvs) strict true).errors
    ∧ (validate_message nowMs (.obj kvs) strict true).valid = false := by
  have hmem : VErr.piiDetected (detect_pii ((Json.obj kvs).getD "p" (Json.obj []))).types
      ∈ (validate_message nowMs (.obj kvs) strict true).errors := by
    rw [validate_message_obj_errors, piiErrs_fires hcls hpii]
    simp
  exact ⟨hmem, valid_false_of_mem hmem⟩

/-- The message of the C2 witness: internal classification, but the payload
contains `user@example.com`. -/
def c2msg : Json :=
  .obj [("v", .str "0.1"), ("id", .str "00000000-0000-0000-0000-000000000000"),
    ("ts", .num 1000000000), ("op", .str "query"),
    ("from", .obj [("agent", .str "a"), ("org", .str "o")]),
    ("cls", .str "int"),
    ("p", .obj [("email", .str "user@example.com")])]

theorem C2_pii_default_reject_witness :
    VErr.piiDetected ["email"]
      ∈ (validate_message 1000000000 c2msg true true).errors
    ∧ (validate_message 1000000000 c2msg true true).valid = false := by
  have h := C2_pii_default_reject 1000000000
    [("v", .str "0.1"), ("id", .str "00000000-0000-0000-0000-000000000000"),
     ("ts", .num 1000000000), ("op", .str "query"),
     ("from", .obj [("agent", .str "a"), ("org", .str "o")]),
     ("cls", .str "int"),
     ("p", .obj [("email", .str "user@example.com")])]
    true (by decide) (by decide)
  have ht : (detect_pii ((Json.obj
      [("v", .str "0.1"), ("id", .str "00000000-0000-0000-0000-000000000000"),
       ("ts", .num 1000000000), ("op", .str "query"),
       ("from", .obj [("agent", .str "a"), ("org", .str "o")]),
       ("cls", .str "int"),
       ("p", .obj [("email", .str "user@example.com")])]).getD "p"
      (Json.obj []))).types = ["email"] := by decide
  refine ⟨?_, h.2⟩
  have h1 := h.1
  rw [ht] at h1
  exact h1
/-! ## Claim C3 — the replay window -/

/-- The timestamp segment under a numeric timestamp. -/
theorem tsErrs_num {nowMs : Int} {kvs : List (String × Json)} {t : Int}
    (hts : Json.lookupKv kvs "ts" = some (.num t)) :
    tsErrs nowMs (.obj kvs) =
      (if t < 0 then [.tsNegative]
       else if nowMs - t > MAX_AGE_MS then [.tsTooOld (nowMs - t)] else []) := by
  unfold tsErrs
  rw [if_pos, show (Json.obj kvs).getN "ts" = Json.num t by
    simp [Json.getN, Json.getD, hts]]
  · rfl
  · simp [Json.hasKey, hts]

/-- C3: with a numeric timestamp, a negative value is an error; a
non-negative one draws the replay error exactly when the age exceeds the
five-minute window, making the message invalid, and the timestamp segment
is otherwise clean (the replay check runs only after type and sign
passed). -/
theorem C3_replay_window (nowMs : Int) (kvs : List (String × Json))
    (strict checkPii : Bool) (t : Int)
    (hts : Json.lookupKv kvs "ts" = some (.num t)) :
    (t < 0 → VErr.tsNegative ∈ (validate_message nowMs (.obj kvs) strict checkPii).errors)
    ∧ (0 ≤ t →
        (VErr.tsTooOld (nowMs - t)
            ∈ (validate_message nowMs (.obj kvs) strict checkPii).errors
          ↔ MAX_AGE_MS < nowMs - t))
    ∧ (0 ≤ t → MAX_AGE_MS < nowMs - t →
        (validate_message nowMs (.obj kvs) strict checkPii).valid = false)
    ∧ (0 ≤ t → nowMs - t ≤ MAX_AGE_MS → tsErrs nowMs (.obj kvs) = []) := by
  refine ⟨?_, ?_, ?_, ?_⟩
  · intro hneg
    rw [validate_message_obj_errors, tsErrs_num hts, if_pos hneg]
    simp
  · intro hpos
    constructor
    · intro hmem
      rw [validate_message_obj_errors] at hmem
      simp only [List.mem_append] at hmem
      rcases hmem with ((((hmem | hmem) | hmem) | hmem) | hmem) | hmem
      · obtain ⟨f, hf⟩ := mem_missingErrs hmem; cases hf
      · obtain ⟨v, hv⟩ := mem_clsErrs hmem; cases hv
      · rw [tsErrs_num hts, if_neg (by omega)] at hmem
        by_cases hage : nowMs - t > MAX_AGE_MS
        · exact hage
        · rw [if_neg hage] at hmem; cases hmem
      · obtain ⟨n, hn⟩ := mem_sizeErrs hmem; cases hn
      · obtain ⟨ts2, hts2⟩ := mem_piiErrs hmem; cases hts2
      · cases mem_expErrs hmem
    · intro hage
      rw [validate_message_obj_errors, tsErrs_num hts, if_neg (by omega), if_pos hage]
      simp
  · intro hpos hage
    have hmem : VErr.tsTooOld (nowMs - t)
        ∈ (validate_message nowMs (.obj kvs) strict checkPii).errors := by
      rw [validate_message_obj_errors, tsErrs_num hts, if_neg (by omega), if_pos hage]
      simp
    exact valid_false_of_mem hmem
  · intro hpos hage
    rw [tsErrs_num hts, if_neg (by omega), if_neg (by omega)]

/-- A message that is fully valid at `nowMs = 1000000000` except for its
timestamp, which the witness varies. -/
def c3msg (ts : Int) : Json :=
  .obj [("v", .str "0.1"), ("id", .str "00000000-0000-0000-0000-000000000000"),
    ("ts", .num ts), ("op", .str "query"),
    ("from", .obj [("agent", .str "a"), ("org", .str "o")]),
    ("cls", .str "int"), ("p", .obj [("k", .str "v")])]

/-- Witness: 4 minutes 59 seconds old validates; 5 minutes 1 second old
fails, with the replay error present. -/
theorem C3_replay_window_witness :
    (validate_message 1000000000 (c3msg (1000000000 - 299000)) true true).valid = true
    ∧ VErr.tsTooOld 301000
        ∈ (validate_message 1000000000 (c3msg (1000000000 - 301000)) true true).errors
    ∧ (validate_message 1000000000 (c3msg (1000000000 - 301000)) true true).valid
        = false := by
  have h := C3_replay_window 1000000000
    [("v", .str "0.1"), ("id", .str "00000000-0000-0000-0000-000000000000"),
     ("ts", .num (1000000000 - 301000)), ("op", .str "query"),
     ("from", .obj [("agent", .str "a"), ("org", .str "o")]),
     ("cls", .str "int"), ("p", .obj [("k", .str "v")])]
    true true (1000000000 - 301000) (by decide)
  refine ⟨by decide, ?_, h.2.2.1 (by decide) (by decide)⟩
  have h2 := (h.2.1 (by decide)).mpr (by decide)
  exact h2
/-! ## Claim C10 — `decode` validates with PII checking off -/

/-- C10: `decode` hands `validate_message` `strict=False, check_pii=False`,
so a JSON message whose payload carries detectable PII under a non-`pii`
classification still decodes (when the non-strict checks pass) — while the
same message fails validation the moment `check_pii` is on. -/
theorem C10_decode_skips_pii_check (nowMs : Int) (s : String)
    (kvs : List (String × Json))
    (hparse : pyLoads s = some (.obj kvs))
    (hkeys : (Json.obj kvs).hasKey "moltspeak" = false
      ∨ (Json.obj kvs).hasKey "envelope" = false)
    (hcls : ¬((Json.obj kvs).getN "cls" = Json.str "pii"))
    (hpii : (detect_pii ((Json.obj kvs).getD "p" (Json.obj []))).has_pii = true)
    (hok : (validate_message nowMs (.obj kvs) false false).valid = true) :
    decode nowMs s true true = .ok (.obj kvs)
    ∧ (validate_message nowMs (.obj kvs) false true).valid = false := by
  constructor
  · have hb : ((Json.obj kvs).hasKey "moltspeak"
        && (Json.obj kvs).hasKey "envelope") = false := by
      rcases hkeys with h | h <;> simp [h]
    unfold decode
    simp only [hparse, hb, Bool.false_eq_true, if_false]
    simp [decodeFinish, hok]
  · have hmem : VErr.piiDetected
        (detect_pii ((Json.obj kvs).getD "p" (Json.obj []))).types
        ∈ (validate_message nowMs (.obj kvs) false true).errors := by
      rw [validate_message_obj_errors, piiErrs_fires hcls hpii]
      simp
    exact valid_false_of_mem hmem

theorem C10_decode_skips_pii_check_witness :
    decode 1000000000 (pyDumps c2msg) true true = .ok c2msg
    ∧ (validate_message 1000000000 c2msg false true).valid = false := by
  exact C10_decode_skips_pii_check 1000000000 (pyDumps c2msg)
    [("v", .str "0.1"), ("id", .str "00000000-0000-0000-0000-000000000000"),
     ("ts", .num 1000000000), ("op", .str "query"),
     ("from", .obj [("agent", .str "a"), ("org", .str "o")]),
     ("cls", .str "int"),
     ("p", .obj [("email", .str "user@example.com")])]
    (pyLoads_pyDumps c2msg) (by decide) (by decide) (by decide) (by decide)
/-! ## Claim C1 — the consent rule lives in `ClassificationValidator` only -/

/-- C1 (amended): in `ClassificationValidator.validate_message`, a
`pii`-classified message without truthy `pii_meta` draws the
metadata-missing error; with a `pii_meta` dict it validates exactly when
`pii_meta.consent.proof` is truthy. -/
theorem C1_consent_rule (msg : Message) (hcls : msg.classification = "pii") :
    (optJsonTruthy msg.pii_meta = false →
      cvValidate msg = .ok [CVErr.consentMetaMissing])
    ∧ (∀ pkvs ckvs, msg.pii_meta = some (.obj pkvs) →
        Json.truthy (.obj pkvs) = true →
        (Json.obj pkvs).getD "consent" (.obj []) = .obj ckvs →
        cvValidate msg =
          .ok (if Json.truthy ((Json.obj ckvs).getN "proof") then []
               else [CVErr.consentProofMissing])) := by
  constructor
  · intro hfalsy
    have hpm : Json.truthy (msg.pii_meta.getD Json.null) = false := by
      cases hp : msg.pii_meta with
      | none => rfl
      | some j => rw [hp] at hfalsy; simpa [optJsonTruthy] using hfalsy
    simp [cvValidate, hcls, consentSegment, hpm]
  · intro pkvs ckvs hpm htr hcons
    by_cases hproof : Json.truthy ((Json.obj ckvs).getN "proof") = true
    · simp [cvValidate, hcls, consentSegment, hpm, htr, hcons, hproof]
    · simp only [Bool.not_eq_true] at hproof
      simp [cvValidate, hcls, consentSegment, hpm, htr, hcons, hproof]

/-- A fully valid `pii` message whose consent proof is present. -/
def cvPiiProofMsg : Message :=
  ⟨"query", ⟨"a", "o1", none, none⟩, ⟨"b", "o1", none, none⟩,
    .obj [("k", .str "v")], "pii", "0.1", "mid", 5, none, none, none, none,
    some (.obj [("consent", .obj [("proof", .str "tok")])]), none⟩

/-- The same message with no `pii_meta` at all. -/
def cvPiiNoMetaMsg : Message :=
  ⟨"query", ⟨"a", "o1", none, none⟩, ⟨"b", "o1", none, none⟩,
    .obj [("k", .str "v")], "pii", "0.1", "mid", 5, none, none, none, none,
    none, none⟩

theorem C1_consent_rule_witness :
    cvValidate cvPiiNoMetaMsg = .ok [CVErr.consentMetaMissing]
    ∧ cvValidate cvPiiProofMsg = .ok [] := by
  constructor
  · exact (C1_consent_rule cvPiiNoMetaMsg rfl).1 (by decide)
  · have h := (C1_consent_rule cvPiiProofMsg rfl).2
      [("consent", .obj [("proof", .str "tok")])] [("proof", .str "tok")]
      rfl (by decide) (by decide)
    simpa using h

/-- A `pii`-classified message with no consent metadata whatsoever, which
`validate_message` nevertheless accepts (nothing in it checks `pii_meta`). -/
def c1NoConsentMsg : Json :=
  .obj [("v", .str "0.1"), ("id", .str "00000000-0000-0000-0000-000000000000"),
    ("ts", .num 1000000000), ("op", .str "query"),
    ("from", .obj [("agent", .str "a"), ("org", .str "o")]),
    ("cls", .str "pii"), ("p", .obj [("name", .str "x")])]

/-- C1 counterexample: the module-level `validate_message` reports a
consent-free `pii` message fully valid. -/
theorem C1_validate_message_counterexample :
    (validate_message 1000000000 c1NoConsentMsg true true).valid = true
    ∧ c1NoConsentMsg.getN "cls" = Json.str "pii"
    ∧ c1NoConsentMsg.hasKey "pii_meta" = false :=
  ⟨by decide, by decide, by decide⟩

/-! ## Claim C4 — the cross-organization secret rule -/

/-- C4 (amended): `ClassificationValidator.validate_message` flags a `sec`
message exactly when the sender's and recipient's organizations differ, and
with equal organizations that rule contributes nothing (any remaining
violation is a PII-detection one). -/
theorem C4_cross_org_secret (msg : Message) (hcls : msg.classification = "sec") :
    ∃ errs, cvValidate msg = .ok errs
      ∧ (CVErr.crossOrgSecret ∈ errs ↔ msg.sender.org ≠ msg.recipient.org)
      ∧ (msg.sender.org = msg.recipient.org →
          ∀ e ∈ errs, ∃ c ts, e = CVErr.piiMismatch c ts) := by
  refine ⟨(if (pdDetectTypes (pyStr msg.payload)).isEmpty then []
      else [CVErr.piiMismatch msg.classification (pdDetectTypes (pyStr msg.payload))])
    ++ (if msg.sender.org = msg.recipient.org then [] else [CVErr.crossOrgSecret]),
    ?_, ?_, ?_⟩
  · by_cases hfound : (pdDetectTypes (pyStr msg.payload)).isEmpty = true
    · by_cases horg : msg.sender.org = msg.recipient.org
      · simp [cvValidate, hcls, hfound, horg]; rfl
      · simp [cvValidate, hcls, hfound, horg]; rfl
    · simp only [Bool.not_eq_true] at hfound
      by_cases horg : msg.sender.org = msg.recipient.org
      · simp [cvValidate, hcls, hfound, horg]; rfl
      · simp [cvValidate, hcls, hfound, horg]; rfl
  · constructor
    · intro hmem
      rcases List.mem_append.mp hmem with h | h
      · exfalso
        split at h
        · cases h
        · cases List.mem_singleton.mp h
      · split at h
        · cases h
        · next horg => exact horg
    · intro hne
      exact List.mem_append.mpr (Or.inr (by rw [if_neg hne]; simp))
  · intro heq e hmem
    rcases List.mem_append.mp hmem with h | h
    · split at h
      · cases h
      · exact ⟨_, _, List.mem_singleton.mp h⟩
    · rw [if_pos heq] at h
      cases h

/-- A `sec` message crossing organizations, and its same-organization twin. -/
def cvSecCrossMsg : Message :=
  ⟨"query", ⟨"a", "o1", none, none⟩, ⟨"b", "o2", none, none⟩,
    .obj [("k", .str "v")], "sec", "0.1", "mid", 5, none, none, none, none,
    none, none⟩

def cvSecSameMsg : Message :=
  ⟨"query", ⟨"a", "o1", none, none⟩, ⟨"b", "o1", none, none⟩,
    .obj [("k", .str "v")], "sec", "0.1", "mid", 5, none, none, none, none,
    none, none⟩

theorem C4_cross_org_secret_witness :
    (∃ errs, cvValidate cvSecCrossMsg = .ok errs ∧ CVErr.crossOrgSecret ∈ errs)
    ∧ cvValidate cvSecSameMsg = .ok [] := by
  constructor
  · obtain ⟨errs, h1, h2, -⟩ := C4_cross_org_secret cvSecCrossMsg rfl
    exact ⟨errs, h1, h2.mpr (by decide)⟩
  · decide

/-- A cross-organization `sec` message that `validate_message` accepts
(no cross-organization check exists there). -/
def c4CrossOrgMsg : Json :=
  .obj [("v", .str "0.1"), ("id", .str "00000000-0000-0000-0000-000000000000"),
    ("ts", .num 1000000000), ("op", .str "query"),
    ("from", .obj [("agent", .str "a"), ("org", .str "o")]),
    ("to", .obj [("agent", .str "b"), ("org", .str "other")]),
    ("cls", .str "sec"), ("p", .obj [("k", .str "v")])]

/-- C4 counterexample: the module-level `validate_message` reports the
cross-organization secret fully valid. -/
theorem C4_validate_message_counterexample :
    (validate_message 1000000000 c4CrossOrgMsg true true).valid = true
    ∧ c4CrossOrgMsg.getN "cls" = Json.str "sec"
    ∧ (c4CrossOrgMsg.getN "from").getN "org" ≠ (c4CrossOrgMsg.getN "to").getN "org" :=
  ⟨by decide, by decide, by decide⟩
/-! ## Claim C5 — signing must not mutate the caller's message -/

/-- C5 (amended): the module-level `sign` returns the caller's dict
untouched (the pair's second component is the input itself) alongside a new
copy whose only change is the `sig` key, set to an `ed25519:`-tagged
string.  `Agent.sign` is the counterexample below. -/
theorem C5_sign_returns_copy (kvs : List (String × Json)) (key : String)
    (hk : key ≠ "") :
    ∃ s, msign (.obj kvs) key
      = .ok (.obj (Json.setKey kvs "sig" (.str ("ed25519:" ++ s))), .obj kvs) := by
  refine ⟨String.mk ((b64encode (utf8Bytes (String.intercalate "|"
      ((((kvs.map (fun kv => kv.1)).filter (fun k => k ≠ "sig")).mergeSort
          (fun a b => a ≤ b)).map
        (fun k => pyDumps ((Json.obj kvs).getN k)))))).toList.take 64), ?_⟩
  rw [msign, if_neg hk]

theorem C5_sign_returns_copy_witness :
    ∃ s, msign (.obj [("v", .str "0.1"), ("op", .str "query")]) "KEY"
      = .ok (.obj (Json.setKey [("v", .str "0.1"), ("op", .str "query")] "sig"
          (.str ("ed25519:" ++ s))),
        .obj [("v", .str "0.1"), ("op", .str "query")]) :=
  C5_sign_returns_copy [("v", .str "0.1"), ("op", .str "query")] "KEY" (by decide)

/-- The identity and message of the C5/C6 counterexamples. -/
def aIdent0 : AgentIdentityL := ⟨"a", "o", "c2VjcmV0a2V5MDE=", "cHVi"⟩

def aMsg0 : Message :=
  ⟨"query", ⟨"a", "o", none, none⟩, ⟨"b", "o", none, none⟩, .obj [], "int",
    "0.1", "mid", 5, none, none, none, none, none, none⟩

/-- C5 counterexample: after `Agent.sign`, the caller's message instance
(the pair's second component) carries a signature the original did not
have — `Agent.sign` mutates its argument and returns the same instance. -/
theorem C5_agent_sign_mutates_counterexample :
    (agentSign aIdent0 aMsg0).map (fun pr => pr.2.signature.isSome) = .ok true
    ∧ aMsg0.signature = none :=
  ⟨rfl, rfl⟩

/-! ## Claim C6 — unsigned verification and the missing-key error -/

/-- C6 (amended): the module-level `verify` returns `False` for a message
without `sig` (for any key, before the key is inspected) and raises for an
empty key when `sig` is present; `Agent.verify` returns `False` on a falsy
signature, but its empty-key behavior is the counterexample below. -/
theorem C6_verify_distinction (m : Json) (k : String) (msg : Message)
    (hnosig : m.hasKey "sig" = false)
    (hfalsy : optStrTruthy msg.signature = false) :
    mverify m k = .ok false
    ∧ (∀ m2 : Json, m2.hasKey "sig" = true → mverify m2 "" = .error .missingPublicKey)
    ∧ agentVerify msg k = .ok false := by
  refine ⟨?_, ?_, ?_⟩
  · rw [mverify, hnosig]
    rfl
  · intro m2 hsig
    rw [mverify, hsig]
    rfl
  · rw [agentVerify, hfalsy]
    rfl

theorem C6_verify_distinction_witness :
    mverify (.obj [("v", .str "0.1")]) "pub" = .ok false
    ∧ mverify (.obj [("sig", .str "x")]) "" = .error .missingPublicKey
    ∧ agentVerify aMsg0 "pub" = .ok false := by
  have h := C6_verify_distinction (.obj [("v", .str "0.1")]) "pub" aMsg0
    (by decide) (by decide)
  exact ⟨h.1, h.2.1 (.obj [("sig", .str "x")]) (by decide), h.2.2⟩

/-- A signed message for the C6 counterexample. -/
def aMsgSigned : Message := { aMsg0 with signature := some "ed25519:abc" }

/-- C6 counterexample: `Agent.verify` with an empty public key does not
raise — the stub path computes a comparison and returns a boolean — so the
missing-key configuration error is not distinct from a failed verification
on this entry point. -/
theorem C6_agent_verify_empty_key_counterexample :
    (agentVerify aMsgSigned "").isOk = true
    ∧ optStrTruthy aMsgSigned.signature = true :=
  ⟨rfl, rfl⟩
/-! ## Claim C9 — the masking rule -/

/-- The spec's masking rule, written from its words: replace all but the
first and the last character of the match with the mask character; fully
mask matches of length at most 4. -/
def specMaskMatch (mc : Char) (v : List Char) : List Char :=
  if v.length ≤ 4 then List.replicate v.length mc
  else [v.headD mc] ++ List.replicate (v.length - 2) mc ++ [v.getLastD mc]

/-- `mask_pii` as the spec describes it: the same pattern folds, with the
spec's per-match rule. -/
def specMaskPii (text : String) (types : List String) (mc : Char) : String :=
  let typesToMask := if types.isEmpty then PII_PATTERNS.map (fun pr => pr.1) else types
  String.mk (typesToMask.foldl (fun acc name =>
    match List.lookup name PII_PATTERNS with
    | some re => reSub re (specMaskMatch mc) acc
    | none => acc) text.toList)

/-- `PIIDetector.mask` as the spec describes it (the claim asserts the same
first/last rule for both implementations). -/
def specPdMask (text : String) (mc : Char) : String :=
  String.mk (pdPATTERNS.foldl (fun acc pr =>
    reSub pr.2 (specMaskMatch mc) acc) text.toList)

theorem drop_pred_getLastD (l : List Char) (d : Char) (h : l ≠ []) :
    l.drop (l.length - 1) = [l.getLastD d] := by
  induction l with
  | nil => exact absurd rfl h
  | cons c t ih =>
      cases t with
      | nil => rfl
      | cons b u =>
          have ht := ih (by simp)
          simp only [List.length_cons, Nat.add_sub_cancel] at ht ⊢
          rw [List.drop_succ_cons]
          simpa [List.getLastD] using ht

/-- The per-match replacement of `mask_pii` is exactly the spec's rule. -/
theorem maskValue1_eq_spec (mc : Char) (v : List Char) :
    maskValue1 mc v = specMaskMatch mc v := by
  unfold maskValue1 specMaskMatch
  by_cases h : v.length ≤ 4
  · rw [if_pos h, if_pos h]
  · rw [if_neg h, if_neg h]
    cases v with
    | nil => simp at h
    | cons c t =>
        have hd : (c :: t).drop ((c :: t).length - 1) = [(c :: t).getLastD mc] :=
          drop_pred_getLastD (c :: t) mc (by simp)
        rw [hd]
        simp [List.take]

/-- C9 (amended, `mask_pii` half): the module-level `mask_pii` masks each
match by the spec's rule — first and last character kept, short matches
fully masked, everything outside matches untouched (the fold only rewrites
match spans). -/
theorem C9_mask_pii_spec_rule (text : String) (types : List String) (mc : Char) :
    mask_pii text types mc = specMaskPii text types mc := by
  have hfun : maskValue1 mc = specMaskMatch mc := funext (maskValue1_eq_spec mc)
  unfold mask_pii specMaskPii
  rw [hfun]

/-- C9 counterexample: on an email, `PIIDetector.mask` keeps the first two
and last two characters, where the spec's rule keeps one on each side. -/
theorem C9_pd_mask_counterexample :
    pdMask "johnsmith@example.com" '*' = "jo*****************om"
    ∧ specPdMask "johnsmith@example.com" '*' = "j*******************m"
    ∧ pdMask "johnsmith@example.com" '*' ≠ specPdMask "johnsmith@example.com" '*' :=
  ⟨by decide, by decide, by decide⟩
/-! ## Claim C8 — envelope shape checking at `unwrap_envelope` -/

/-- C8 (amended): with dict-shaped envelope metadata, `unwrap_envelope`
returns the contained message exactly when the version marker is present,
the envelope carries envelope metadata or ciphertext (the code's condition —
not the spec's message-or-ciphertext), the metadata does not declare
`encrypted`, and a `message` field exists; in every other case it raises. -/
theorem C8_unwrap_exact (kvs mkvs : List (String × Json))
    (hmeta : (Json.obj kvs).getD "envelope" (.obj []) = .obj mkvs) (j : Json) :
    unwrap_envelope (.obj kvs) = .ok j ↔
      ((Json.obj kvs).hasKey "moltspeak" = true
        ∧ ((Json.obj kvs).hasKey "envelope" = true
            ∨ (Json.obj kvs).hasKey "ciphertext" = true)
        ∧ Json.truthy ((Json.obj mkvs).getN "encrypted") = false
        ∧ Json.lookupKv kvs "message" = some j) := by
  by_cases b1 : (Json.obj kvs).hasKey "moltspeak" = true <;>
  by_cases b2 : (Json.obj kvs).hasKey "envelope" = true <;>
  by_cases b3 : (Json.obj kvs).hasKey "ciphertext" = true <;>
  by_cases b4 : Json.truthy ((Json.obj mkvs).getN "encrypted") = true <;>
  by_cases b5 : (Json.obj mkvs).hasKey "algorithm" = true <;>
  by_cases b6 : Json.truthy (Json.obj mkvs) = true <;>
  cases hlook : Json.lookupKv kvs "message" <;>
    simp_all [unwrap_envelope, validate_envelope, hmeta, Json.hasKey,
      bind, Except.bind, pure, Except.pure, throw, throwThe, MonadExceptOf.throw]
/-- A well-formed unencrypted envelope for the C8 witness. -/
def c8OkKvs : List (String × Json) :=
  [("moltspeak", .str "0.1"),
   ("envelope", .obj [("encrypted", .bool false), ("compressed", .bool false),
     ("encoding", .str "utf-8")]),
   ("message", .obj [("v", .str "0.1")])]

theorem C8_unwrap_exact_witness :
    unwrap_envelope (.obj c8OkKvs) = .ok (.obj [("v", .str "0.1")]) :=
  (C8_unwrap_exact c8OkKvs
    [("encrypted", .bool false), ("compressed", .bool false),
     ("encoding", .str "utf-8")]
    (by decide) (.obj [("v", .str "0.1")])).mpr
    ⟨by decide, Or.inl (by decide), by decide, by decide⟩

/-- The spec's envelope-shape condition, from its words: version marker;
message or ciphertext; with `metadata.encrypted`, ciphertext and algorithm;
without it, a message. -/
def specEnvelopeShapeOk (env : Json) : Bool :=
  env.hasKey "moltspeak"
    && (env.hasKey "message" || env.hasKey "ciphertext")
    && (if Json.truthy ((env.getD "envelope" (.obj [])).getN "encrypted") then
          env.hasKey "ciphertext" && (env.getD "envelope" (.obj [])).hasKey "algorithm"
        else env.hasKey "message")

/-- An envelope that satisfies every shape condition the spec lists. -/
def c8SpecOkEnv : Json :=
  .obj [("moltspeak", .str "0.1"), ("message", .obj [("v", .str "0.1")])]

/-- C8 counterexample: the spec's shape conditions hold (version marker and
message present, nothing encrypted), yet `unwrap_envelope` raises — the code
demands envelope metadata or ciphertext, not message or ciphertext. -/
theorem C8_unwrap_counterexample :
    specEnvelopeShapeOk c8SpecOkEnv = true
    ∧ unwrap_envelope c8SpecOkEnv
        = .error (.invalidEnvelope [EErr.missingEnvelopeOrCiphertext]) :=
  ⟨by decide, by decide⟩
/-! ## Claim C7 — encode/decode round trip -/

/-- A message valid under strict validation with PII checking stays valid
under the non-strict, PII-off validation `decode` performs: the non-strict
required-field pass checks a prefix of the strict field list, the PII pass
is skipped, and every other check is identical. -/
theorem valid_nonstrict (nowMs : Int) (kvs : List (String × Json))
    (h : (validate_message nowMs (.obj kvs) true true).valid = true) :
    (validate_message nowMs (.obj kvs) false false).valid = true := by
  rw [validate_message_obj_valid, validate_message_obj_errors] at h ⊢
  have hsplit : missingErrs (.obj kvs) true
      = missingErrs (.obj kvs) false
        ++ (["from", "cls"].filterMap (fun f =>
            if !((Json.obj kvs).hasKey f) || (Json.obj kvs).getN f == Json.null
            then some (.missingField f) else none)) := by
    show List.filterMap _ (["v", "id", "ts", "op"] ++ ["from", "cls"]) = _
    rw [List.filterMap_append]
    rfl
  have hpii : piiErrs false (.obj kvs) = [] := rfl
  rw [hsplit] at h
  simp only [List.isEmpty_iff, List.append_eq_nil] at h ⊢
  exact ⟨⟨⟨⟨⟨h.1.1.1.1.1.1, h.1.1.1.1.2⟩, h.1.1.1.2⟩, h.1.1.2⟩, hpii⟩, h.2⟩

/-- Unwrapping an envelope `wrap_in_envelope` built succeeds with the
wrapped message. -/
theorem unwrap_wrap (m : Json) :
    unwrap_envelope (wrap_in_envelope m false) = .ok m := rfl

/-- C7 (amended): for a message `validate_message` accepts that does not
itself carry both a `"moltspeak"` and an `"envelope"` key, `decode` inverts
`encode` in all four pretty/envelope combinations. -/
theorem C7_roundtrip (nowMs : Int) (kvs : List (String × Json))
    (hvalid : (validate_message nowMs (.obj kvs) true true).valid = true)
    (hkeys : (Json.obj kvs).hasKey "moltspeak" = false
      ∨ (Json.obj kvs).hasKey "envelope" = false) :
    ∀ pretty env : Bool,
      decode nowMs (encode (.obj kvs) pretty env) true true = .ok (.obj kvs) := by
  intro pretty env
  have hok := valid_nonstrict nowMs kvs hvalid
  cases env with
  | false =>
      have hb : ((Json.obj kvs).hasKey "moltspeak"
          && (Json.obj kvs).hasKey "envelope") = false := by
        rcases hkeys with h | h <;> simp [h]
      have hparse : pyLoads (encode (.obj kvs) pretty false) = some (.obj kvs) := by
        cases pretty with
        | false => exact pyLoads_pyDumps _
        | true => exact pyLoads_pyDumpsIndent2 _
      unfold decode
      simp only [hparse, hb, Bool.false_eq_true, if_false]
      simp [decodeFinish, hok]
  | true =>
      have hparse : pyLoads (encode (.obj kvs) pretty true)
          = some (wrap_in_envelope (.obj kvs) false) := by
        cases pretty with
        | false => exact pyLoads_pyDumps _
        | true => exact pyLoads_pyDumpsIndent2 _
      unfold decode
      simp only [hparse,
        show ((wrap_in_envelope (.obj kvs) false).hasKey "moltspeak"
          && (wrap_in_envelope (.obj kvs) false).hasKey "envelope") = true from rfl,
        reduceIte, unwrap_wrap]
      simp [decodeFinish, hok]

theorem C7_roundtrip_witness :
    decode 1000000000 (encode c1NoConsentMsg true true) true true
      = .ok c1NoConsentMsg
    ∧ decode 1000000000 (encode c1NoConsentMsg false false) true true
      = .ok c1NoConsentMsg := by
  have h := C7_roundtrip 1000000000
    [("v", .str "0.1"), ("id", .str "00000000-0000-0000-0000-000000000000"),
     ("ts", .num 1000000000), ("op", .str "query"),
     ("from", .obj [("agent", .str "a"), ("org", .str "o")]),
     ("cls", .str "pii"), ("p", .obj [("name", .str "x")])]
    (by decide) (Or.inl (by decide))
  exact ⟨h true true, h false false⟩

/-- A message `validate_message` accepts that happens to carry both a
`"moltspeak"` and an `"envelope"` key of its own. -/
def c7BothKeysMsg : Json :=
  .obj [("v", .str "0.1"), ("id", .str "00000000-0000-0000-0000-000000000000"),
    ("ts", .num 1000000000), ("op", .str "query"),
    ("from", .obj [("agent", .str "a"), ("org", .str "o")]),
    ("cls", .str "int"), ("moltspeak", .str "0.1"),
    ("envelope", .obj [("note", .str "x")])]

/-- C7 counterexample: that message validates, but `decode(encode(m))`
mis-detects it as an envelope and raises instead of returning it. -/
theorem C7_roundtrip_counterexample :
    (validate_message 1000000000 c7BothKeysMsg true true).valid = true
    ∧ decode 1000000000 (encode c7BothKeysMsg false false) true true
        = .error (.invalidEnvelope [EErr.unencryptedMissingMessage]) := by
  constructor
  · decide
  · unfold decode
    simp only [pyLoads_pyDumps c7BothKeysMsg]
    decide
end MS
